import Mathlib

/-!
Verification of the Measurement Persistence & Indexing Subsystem
(`daq/db/database.py` and `daq/_base.py`).

The Python code is shallowly embedded: Python values become the inductive
type `PyVal` (rationals model the exact float values that occur in the
claims), Python dicts become ordered association lists with
insertion-order-preserving update, the MongoDB collection becomes a list
of documents, and each database round trip is modelled by its outcome.
-/

namespace Daq

/-- Model of a Python/BSON value as it occurs in measurement records and
catalog documents.  `float` is modelled by an exact rational; `obj` is an
opaque object whose `str()` either returns the given string or raises. -/
inductive PyVal where
  | none : PyVal
  | bool (b : Bool) : PyVal
  | int (i : Int) : PyVal
  | float (q : ℚ) : PyVal
  | str (s : String) : PyVal
  | pylist (l : List PyVal) : PyVal
  | dict (entries : List (String × PyVal)) : PyVal
  | npArray (l : List PyVal) : PyVal
  | npInt (i : Int) : PyVal
  | npFloat (q : ℚ) : PyVal
  | obj (s : Option String) : PyVal

/-- A document / Python dict: an ordered association list. -/
abbrev Doc := List (String × PyVal)

/-- First-match lookup in an ordered association list (Python `d[k]` /
`k in d`). -/
def dlookup {α : Type} (d : List (String × α)) (k : String) : Option α :=
  match d with
  | [] => Option.none
  | (k0, v) :: rest => if k0 = k then some v else dlookup rest k

/-- Python dict assignment `d[k] = v`: replaces in place if the key exists
(keeping insertion order), otherwise appends. -/
def dictSet {α : Type} : List (String × α) → String → α → List (String × α)
  | [], k, v => [(k, v)]
  | (k0, v0) :: rest, k, v =>
    if k0 = k then (k0, v) :: rest else (k0, v0) :: dictSet rest k v

/-- Setting a key makes it present with the written value. -/
theorem dlookup_dictSet_self {α : Type} :
    ∀ (d : List (String × α)) (k : String) (v : α),
      dlookup (dictSet d k v) k = some v := by
  intro d
  induction d with
  | nil => intro k v; simp [dictSet, dlookup]
  | cons p rest ih =>
    intro k v
    match p with
    | (k0, v0) =>
      by_cases h : k0 = k
      · subst h
        simp [dictSet, dlookup]
      · simp only [dictSet, if_neg h, dlookup]
        exact ih k v

/-- Setting a key leaves every other key unchanged. -/
theorem dlookup_dictSet_ne {α : Type} :
    ∀ (d : List (String × α)) (k k2 : String) (v : α), k ≠ k2 →
      dlookup (dictSet d k v) k2 = dlookup d k2 := by
  intro d
  induction d with
  | nil =>
    intro k k2 v hne
    simp [dictSet, dlookup, hne]
  | cons p rest ih =>
    intro k k2 v hne
    match p with
    | (k0, v0) =>
      by_cases h : k0 = k
      · subst h
        simp only [dictSet, if_pos rfl, dlookup]
        simp only [if_neg hne]
      · simp only [dictSet, if_neg h, dlookup]
        by_cases h2 : k0 = k2
        · rw [if_pos h2, if_pos h2]
        · rw [if_neg h2, if_neg h2]
          exact ih k k2 v hne

-- Structural boolean equality on `PyVal` (Python `==` restricted to the
-- cases the code exercises: MongoDB value equality for grouping).
mutual

/-- Boolean equality of two `PyVal`s. -/
def pyBeq : PyVal → PyVal → Bool
  | .none, .none => true
  | .bool x, .bool y => x == y
  | .int x, .int y => x == y
  | .float x, .float y => x == y
  | .str x, .str y => x == y
  | .pylist x, .pylist y => pyListBeq x y
  | .dict x, .dict y => pyEntriesBeq x y
  | .npArray x, .npArray y => pyListBeq x y
  | .npInt x, .npInt y => x == y
  | .npFloat x, .npFloat y => x == y
  | .obj x, .obj y => x == y
  | _, _ => false

def pyListBeq : List PyVal → List PyVal → Bool
  | [], [] => true
  | a :: as, b :: bs => pyBeq a b && pyListBeq as bs
  | _, _ => false

def pyEntriesBeq : List (String × PyVal) → List (String × PyVal) → Bool
  | [], [] => true
  | (k, a) :: as, (l, b) :: bs => k == l && pyBeq a b && pyEntriesBeq as bs
  | _, _ => false

end

/-! ### Decimal rendering and zero padding

`str(n)` and `str.zfill` from Python, used by `get_next_number` to render
run numbers, and the lexicographic byte order MongoDB uses to sort the
string-valued `number` field. -/

/-- Fuel-driven decimal renderer; with fuel at least `n` it computes the
digit characters of `n`, most significant first. -/
def natDecReprAux : Nat → Nat → List Char
  | 0, n => if n < 10 then [Nat.digitChar n] else []
  | g + 1, n =>
    if n < 10 then [Nat.digitChar n]
    else natDecReprAux g (n / 10) ++ [Nat.digitChar (n % 10)]

/-- Decimal digit list of a natural number, most significant first:
the characters of Python `str(n)` for `n ≥ 0`. -/
def natDecRepr (n : Nat) : List Char := natDecReprAux n n

/-- The fuel argument of `natDecReprAux` is irrelevant once it dominates
the number being rendered. -/
theorem natDecReprAux_irrel :
    ∀ f g n : Nat, n ≤ f → n ≤ g → natDecReprAux f n = natDecReprAux g n := by
  intro f
  induction f with
  | zero =>
    intro g n hf _
    interval_cases n
    cases g with
    | zero => simp [natDecReprAux]
    | succ g => simp [natDecReprAux]
  | succ f ih =>
    intro g n hf hg
    by_cases h10 : n < 10
    · cases g with
      | zero =>
        interval_cases n
        all_goals simp [natDecReprAux]
      | succ g => simp [natDecReprAux, h10]
    · have hg1 : ∃ g1, g = g1 + 1 := ⟨g - 1, by omega⟩
      obtain ⟨g1, rfl⟩ := hg1
      simp only [natDecReprAux, if_neg h10]
      have hdiv : n / 10 < n := Nat.div_lt_self (by omega) (by omega)
      rw [ih g1 (n / 10) (by omega) (by omega)]

/-- Recursive characterization of `natDecRepr`. -/
theorem natDecRepr_eq (n : Nat) :
    natDecRepr n =
      if n < 10 then [Nat.digitChar n]
      else natDecRepr (n / 10) ++ [Nat.digitChar (n % 10)] := by
  by_cases h10 : n < 10
  · cases n with
    | zero => simp [natDecRepr, natDecReprAux]
    | succ m => simp [natDecRepr, natDecReprAux, h10]
  · have hn : ∃ m, n = m + 1 := ⟨n - 1, by omega⟩
    obtain ⟨m, rfl⟩ := hn
    have hdiv : (m + 1) / 10 < m + 1 := Nat.div_lt_self (by omega) (by omega)
    simp only [natDecRepr, natDecReprAux, if_neg h10]
    rw [natDecReprAux_irrel m ((m + 1) / 10) ((m + 1) / 10) (by omega) (by omega)]

/-- Characters of Python `str(i)` for an integer. -/
def intDecRepr (i : Int) : List Char :=
  if i < 0 then '-' :: natDecRepr i.natAbs else natDecRepr i.toNat

/-- Python `s.zfill(w)`: left-pad with `'0'` to width `w`, keeping a
leading sign in front of the inserted zeros. -/
def zfillChars (w : Nat) : List Char → List Char
  | [] => List.replicate w '0'
  | c :: rest =>
    if w ≤ (c :: rest).length then c :: rest
    else if c = '-' ∨ c = '+' then
      c :: (List.replicate (w - (c :: rest).length) '0' ++ rest)
    else List.replicate (w - (c :: rest).length) '0' ++ (c :: rest)

/-- Rendering of a run number: `str(n).zfill(8)` from `get_next_number`. -/
def renderNumber (n : Int) : String := String.mk (zfillChars 8 (intDecRepr n))

/-- Value of a list of decimal digit characters, most significant first. -/
def digitsVal : List Char → Nat
  | [] => 0
  | c :: cs => (c.toNat - 48) * 10 ^ cs.length + digitsVal cs

/-- Boolean test that every character is a decimal digit. -/
def allDigits (l : List Char) : Bool :=
  l.all (fun c => 48 ≤ c.toNat && c.toNat ≤ 57)

/-- Digit parsing of a character list: optional sign followed by decimal
digits. -/
def pyIntOfChars : List Char → Option Int
  | [] => Option.none
  | c :: rest =>
    if c = '-' then
      if rest ≠ [] ∧ allDigits rest then some (-(digitsVal rest : Int))
      else Option.none
    else if c = '+' then
      if rest ≠ [] ∧ allDigits rest then some (digitsVal rest : Int)
      else Option.none
    else if allDigits (c :: rest) then some (digitsVal (c :: rest) : Int)
    else Option.none

/-- Python `int(s)` on a string; `Option.none` models the `ValueError`
raised on a malformed literal. -/
def pyIntOfStr (s : String) : Option Int := pyIntOfChars s.data

/-- Python `int(v)` on an arbitrary value: integers and booleans embed,
floats truncate toward zero, strings parse; everything else raises
(`Option.none`). -/
def pyInt : PyVal → Option Int
  | .int i => some i
  | .npInt i => some i
  | .bool b => some (if b then 1 else 0)
  | .float q => some (q.num / (q.den : Int))
  | .npFloat q => some (q.num / (q.den : Int))
  | .str s => pyIntOfStr s
  | _ => Option.none

/-! ### MongoDB sort order on the `number` field -/

/-- Byte-wise lexicographic comparison of two character lists: the order
MongoDB (binary collation) uses on string values. -/
def chLe : List Char → List Char → Bool
  | [], _ => true
  | _ :: _, [] => false
  | a :: as, b :: bs =>
    if a.toNat < b.toNat then true
    else if b.toNat < a.toNat then false
    else chLe as bs

/-- BSON type rank used by MongoDB when sorting mixed-type values:
null < numbers < strings < objects < arrays < booleans < other. -/
def bsonRank : PyVal → Nat
  | .none => 1
  | .int _ => 2
  | .float _ => 2
  | .npInt _ => 2
  | .npFloat _ => 2
  | .str _ => 3
  | .dict _ => 4
  | .pylist _ => 5
  | .npArray _ => 5
  | .bool _ => 6
  | .obj _ => 7

/-- Numeric value of a BSON number (also used for Python arithmetic on
the numeric values the code manipulates). -/
def numQ : PyVal → ℚ
  | .int i => (i : ℚ)
  | .npInt i => (i : ℚ)
  | .float q => q
  | .npFloat q => q
  | .bool b => if b then 1 else 0
  | _ => 0

/-- Sort rank of a possibly missing field: MongoDB sorts a missing field
together with null. -/
def sortKeyRank : Option PyVal → Nat
  | Option.none => 1
  | some v => bsonRank v

/-- MongoDB sort comparison of two possibly missing field values:
rank first, then value within equal rank (numeric order for numbers,
byte-wise lexicographic order for strings). -/
def keyLe (a b : Option PyVal) : Bool :=
  if sortKeyRank a < sortKeyRank b then true
  else if sortKeyRank b < sortKeyRank a then false
  else
    match a, b with
    | some (.str s), some (.str t) => chLe s.data t.data
    | some x, some y =>
      if bsonRank x = 2 then decide (numQ x ≤ numQ y) else true
    | _, _ => true

/-! ### The Catalog Client and Sequence Allocator (`daq/db/database.py`) -/

/-- Field used as the sort key by the allocator's `find_one` call. -/
def numberKey (d : Doc) : Option PyVal := dlookup d "number"

/-- One comparison step of the descending scan: replace the current best
document only if the candidate is strictly greater on the `number` key
(so ties keep the earlier document). -/
def findMaxStep (acc : Option Doc) (d : Doc) : Option Doc :=
  match acc with
  | Option.none => some d
  | some m =>
    if keyLe (numberKey m) (numberKey d) &&
        !(keyLe (numberKey d) (numberKey m)) then some d
    else some m

/-- Model of `collection.find_one(sort=[("number", -1)])`: the first
document in descending `number` order. -/
def findMaxNumberDoc (catalog : List Doc) : Option Doc :=
  catalog.foldl findMaxStep Option.none

/-- `get_next_number` from `daq/db/database.py`, as a function of the
catalog contents.  `Except.error` models an exception propagating to the
caller (for example `int()` failing on a malformed `number`). -/
def get_next_number (catalog : List Doc) : Except String String :=
  match findMaxNumberDoc catalog with
  | Option.none => Except.ok (renderNumber 1)
  | some result =>
    match dlookup result "number" with
    | Option.none => Except.ok (renderNumber 1)
    | some v =>
      match pyInt v with
      | Option.none => Except.error "invalid literal for int()"
      | some last => Except.ok (renderNumber (last + 1))

/-- `generate_filename` from `daq/db/database.py`. -/
def generate_filename (number device measurement_type : String) : String :=
  number ++ "-" ++ device ++ "-" ++ measurement_type ++ ".h5"

/-! ### Arithmetic facts about decimal rendering and lexicographic order -/

/-- Characters are determined by their code points. -/
theorem char_toNat_inj {c d : Char} (h : c.toNat = d.toNat) : c = d := by
  have hv : c.val = d.val := UInt32.toNat.inj h
  exact Char.eq_of_val_eq hv

/-- Strings are determined by their character lists. -/
theorem string_data_inj {s t : String} (h : s.data = t.data) : s = t := by
  cases s; cases t; exact congrArg String.mk h

/-- Code point of the digit character of `d < 10`. -/
theorem digitChar_toNat : ∀ d : Nat, d < 10 → (Nat.digitChar d).toNat = 48 + d := by
  decide

/-- A digit character of `d < 10` is a decimal digit. -/
theorem digitChar_isDigit (d : Nat) (h : d < 10) :
    48 ≤ (Nat.digitChar d).toNat ∧ (Nat.digitChar d).toNat ≤ 57 := by
  rw [digitChar_toNat d h]; omega

/-- Decimal rendering of a natural number is never empty. -/
theorem natDecRepr_ne_nil (n : Nat) : natDecRepr n ≠ [] := by
  rw [natDecRepr_eq]
  by_cases h : n < 10 <;> simp [h]

/-- Every character of the decimal rendering is a decimal digit. -/
theorem natDecRepr_digits (n : Nat) :
    ∀ c ∈ natDecRepr n, 48 ≤ c.toNat ∧ c.toNat ≤ 57 := by
  induction n using Nat.strong_induction_on with
  | _ n ih =>
    intro c hc
    rw [natDecRepr_eq] at hc
    by_cases h : n < 10
    · rw [if_pos h] at hc
      have : c = Nat.digitChar n := by simpa using hc
      subst this
      exact digitChar_isDigit n h
    · rw [if_neg h] at hc
      rcases List.mem_append.mp hc with hc2 | hc2
      · exact ih (n / 10) (Nat.div_lt_self (by omega) (by omega)) c hc2
      · have : c = Nat.digitChar (n % 10) := by simpa using hc2
        subst this
        exact digitChar_isDigit (n % 10) (Nat.mod_lt n (by omega))

/-- `allDigits` holds of the decimal rendering. -/
theorem allDigits_natDecRepr (n : Nat) : allDigits (natDecRepr n) = true := by
  simp only [allDigits, List.all_eq_true]
  intro c hc
  have := natDecRepr_digits n c hc
  simp only [Bool.and_eq_true, decide_eq_true_eq]
  omega

/-- Appending one digit multiplies the value by ten. -/
theorem digitsVal_append_digit (xs : List Char) (c : Char) :
    digitsVal (xs ++ [c]) = 10 * digitsVal xs + (c.toNat - 48) := by
  induction xs with
  | nil => simp [digitsVal]
  | cons x xs ih =>
    have hstep : (x :: xs) ++ [c] = x :: (xs ++ [c]) := rfl
    rw [hstep]
    simp only [digitsVal]
    rw [ih]
    have hL : (xs ++ [c]).length = xs.length + 1 := by simp
    rw [hL, pow_succ]
    ring

/-- The decimal rendering evaluates back to the number. -/
theorem digitsVal_natDecRepr (n : Nat) : digitsVal (natDecRepr n) = n := by
  induction n using Nat.strong_induction_on with
  | _ n ih =>
    rw [natDecRepr_eq]
    by_cases h : n < 10
    · rw [if_pos h]
      show ((Nat.digitChar n).toNat - 48) * 10 ^ ([] : List Char).length + digitsVal [] = n
      rw [digitChar_toNat n h]
      simp [digitsVal]
    · rw [if_neg h, digitsVal_append_digit,
        ih (n / 10) (Nat.div_lt_self (by omega) (by omega)),
        digitChar_toNat (n % 10) (Nat.mod_lt n (by omega))]
      omega

/-- Numbers below `10 ^ k` render with at most `k` digits (for `k ≥ 1`). -/
theorem natDecRepr_length_le (k : Nat) (hk : 1 ≤ k) :
    ∀ n : Nat, n < 10 ^ k → (natDecRepr n).length ≤ k := by
  induction k with
  | zero => omega
  | succ k ihk =>
    intro n hn
    rw [natDecRepr_eq]
    by_cases h : n < 10
    · rw [if_pos h]
      simp only [List.length_singleton]
      omega
    · rw [if_neg h]
      have hk1 : 1 ≤ k := by
        by_contra hc
        have : k = 0 := by omega
        subst this
        norm_num at hn
        omega
      have hdiv : n / 10 < 10 ^ k := by
        rw [Nat.div_lt_iff_lt_mul (by omega)]
        calc n < 10 ^ (k + 1) := hn
        _ = 10 ^ k * 10 := pow_succ 10 k
      simpa using ihk hk1 (n / 10) hdiv

/-- A digit string of length `L` has value below `10 ^ L`. -/
theorem digitsVal_lt (l : List Char)
    (h : ∀ c ∈ l, 48 ≤ c.toNat ∧ c.toNat ≤ 57) :
    digitsVal l < 10 ^ l.length := by
  induction l with
  | nil => simp [digitsVal]
  | cons c cs ih =>
    have hc := h c (List.mem_cons_self c cs)
    have hcs := ih (fun x hx => h x (List.mem_cons_of_mem c hx))
    simp only [digitsVal, List.length_cons]
    have hd : c.toNat - 48 ≤ 9 := by omega
    calc (c.toNat - 48) * 10 ^ cs.length + digitsVal cs
        < (c.toNat - 48) * 10 ^ cs.length + 10 ^ cs.length := by omega
    _ = (c.toNat - 48 + 1) * 10 ^ cs.length := by ring
    _ ≤ 10 * 10 ^ cs.length := Nat.mul_le_mul_right _ (by omega)
    _ = 10 ^ (cs.length + 1) := by rw [pow_succ]; ring

/-- On equal-length digit strings, byte-wise lexicographic order agrees
with numeric order. -/
theorem chLe_digits_iff :
    ∀ a b : List Char,
      (∀ c ∈ a, 48 ≤ c.toNat ∧ c.toNat ≤ 57) →
      (∀ c ∈ b, 48 ≤ c.toNat ∧ c.toNat ≤ 57) →
      a.length = b.length →
      (chLe a b = true ↔ digitsVal a ≤ digitsVal b) := by
  intro a
  induction a with
  | nil =>
    intro b _ _ hlen
    have : b = [] := List.eq_nil_of_length_eq_zero hlen.symm
    subst this
    simp [chLe]
  | cons c cs ih =>
    intro b ha hb hlen
    match b with
    | [] => simp at hlen
    | d :: ds =>
      have hc := ha c (List.mem_cons_self c cs)
      have hd := hb d (List.mem_cons_self d ds)
      have hcs : ∀ x ∈ cs, 48 ≤ x.toNat ∧ x.toNat ≤ 57 :=
        fun x hx => ha x (List.mem_cons_of_mem c hx)
      have hds : ∀ x ∈ ds, 48 ≤ x.toNat ∧ x.toNat ≤ 57 :=
        fun x hx => hb x (List.mem_cons_of_mem d hx)
      have hlen2 : cs.length = ds.length := by simpa using hlen
      have hvcs : digitsVal cs < 10 ^ cs.length := digitsVal_lt cs hcs
      have hvds : digitsVal ds < 10 ^ ds.length := digitsVal_lt ds hds
      simp only [chLe, digitsVal, hlen2]
      rcases Nat.lt_trichotomy c.toNat d.toNat with hlt | heq | hgt
      · rw [if_pos hlt]
        constructor
        · intro _
          refine le_of_lt ?_
          calc (c.toNat - 48) * 10 ^ ds.length + digitsVal cs
              < (c.toNat - 48) * 10 ^ ds.length + 10 ^ ds.length := by
                rw [← hlen2]; omega
          _ = (c.toNat - 48 + 1) * 10 ^ ds.length := by ring
          _ ≤ (d.toNat - 48) * 10 ^ ds.length := Nat.mul_le_mul_right _ (by omega)
          _ ≤ (d.toNat - 48) * 10 ^ ds.length + digitsVal ds := Nat.le_add_right _ _
        · intro _; rfl
      · rw [if_neg (by omega), if_neg (by omega), heq]
        rw [ih ds hcs hds hlen2]
        omega
      · rw [if_neg (by omega), if_pos hgt]
        constructor
        · intro hfalse; exact absurd hfalse (by simp)
        · intro habs
          exfalso
          have : (d.toNat - 48) * 10 ^ ds.length + digitsVal ds
              < (c.toNat - 48) * 10 ^ ds.length + digitsVal cs := by
            calc (d.toNat - 48) * 10 ^ ds.length + digitsVal ds
                < (d.toNat - 48) * 10 ^ ds.length + 10 ^ ds.length := by omega
            _ = (d.toNat - 48 + 1) * 10 ^ ds.length := by ring
            _ ≤ (c.toNat - 48) * 10 ^ ds.length := Nat.mul_le_mul_right _ (by omega)
            _ ≤ (c.toNat - 48) * 10 ^ ds.length + digitsVal cs := Nat.le_add_right _ _
          omega

/-- `chLe` is total. -/
theorem chLe_total : ∀ a b : List Char, chLe a b = true ∨ chLe b a = true := by
  intro a
  induction a with
  | nil => intro b; left; simp [chLe]
  | cons c cs ih =>
    intro b
    match b with
    | [] => right; simp [chLe]
    | d :: ds =>
      simp only [chLe]
      rcases Nat.lt_trichotomy c.toNat d.toNat with hlt | heq | hgt
      · left; rw [if_pos hlt]
      · rw [if_neg (by omega), if_neg (by omega), if_neg (by omega), if_neg (by omega)]
        exact ih ds
      · right; rw [if_pos hgt]

/-- `chLe` is transitive. -/
theorem chLe_trans :
    ∀ a b c : List Char, chLe a b = true → chLe b c = true → chLe a c = true := by
  intro a
  induction a with
  | nil => intro b c _ _; simp [chLe]
  | cons x xs ih =>
    intro b c hab hbc
    match b, c with
    | [], _ => simp [chLe] at hab
    | _ :: _, [] => simp [chLe] at hbc
    | y :: ys, z :: zs =>
      simp only [chLe] at hab hbc ⊢
      rcases Nat.lt_trichotomy x.toNat y.toNat with h1 | h1 | h1
      · rcases Nat.lt_trichotomy y.toNat z.toNat with h2 | h2 | h2
        · rw [if_pos (by omega)]
        · rw [if_pos (by omega)]
        · rw [if_neg (by omega), if_pos h2] at hbc
          exact absurd hbc (by simp)
      · rcases Nat.lt_trichotomy y.toNat z.toNat with h2 | h2 | h2
        · rw [if_pos (by omega)]
        · rw [if_neg (by omega), if_neg (by omega)]
          rw [if_neg (by omega), if_neg (by omega)] at hab hbc
          exact ih ys zs hab hbc
        · rw [if_neg (by omega), if_pos h2] at hbc
          exact absurd hbc (by simp)
      · rw [if_neg (by omega), if_pos h1] at hab
        exact absurd hab (by simp)

/-- `chLe` is antisymmetric. -/
theorem chLe_antisymm :
    ∀ a b : List Char, chLe a b = true → chLe b a = true → a = b := by
  intro a
  induction a with
  | nil =>
    intro b _ hba
    match b with
    | [] => rfl
    | _ :: _ => simp [chLe] at hba
  | cons x xs ih =>
    intro b hab hba
    match b with
    | [] => simp [chLe] at hab
    | y :: ys =>
      simp only [chLe] at hab hba
      rcases Nat.lt_trichotomy x.toNat y.toNat with h1 | h1 | h1
      · rw [if_neg (by omega), if_pos h1] at hba
        exact absurd hba (by simp)
      · rw [if_neg (by omega), if_neg (by omega)] at hab hba
        rw [char_toNat_inj h1, ih ys hab hba]
      · rw [if_neg (by omega), if_pos h1] at hab
        exact absurd hab (by simp)

/-! ### Facts about zero padding -/

/-- On a digit string (no sign character), `zfill` is plain left padding
with zeros. -/
theorem zfillChars_digits (w : Nat) (s : List Char)
    (hs : ∀ c ∈ s, 48 ≤ c.toNat ∧ c.toNat ≤ 57) (hne : s ≠ []) :
    zfillChars w s = List.replicate (w - s.length) '0' ++ s := by
  match s, hne with
  | c :: rest, _ =>
    have hc := hs c (List.mem_cons_self c rest)
    have hminus : ¬(c = '-' ∨ c = '+') := by
      rintro (rfl | rfl)
      · have h45 : ('-' : Char).toNat = 45 := by decide
        omega
      · have h43 : ('+' : Char).toNat = 43 := by decide
        omega
    show zfillChars w (c :: rest) = _
    by_cases hw : w ≤ (c :: rest).length
    · simp only [zfillChars, if_pos hw]
      have hz : w - (c :: rest).length = 0 := by omega
      rw [hz]
      simp
    · simp only [zfillChars, if_neg hw, if_neg hminus]

/-- Left padding with zeros preserves the numeric value. -/
theorem digitsVal_replicate_zero (z : Nat) (s : List Char) :
    digitsVal (List.replicate z '0' ++ s) = digitsVal s := by
  induction z with
  | zero => simp
  | succ z ih =>
    rw [List.replicate_succ, List.cons_append]
    simp only [digitsVal]
    rw [ih]
    have h48 : ('0' : Char).toNat = 48 := by decide
    rw [h48]
    simp

/-- The padded rendering of `n < 10 ^ 8` has length exactly 8, consists of
digits, and evaluates to `n`. -/
theorem zfill8_spec (n : Nat) (hn : n < 10 ^ 8) :
    (zfillChars 8 (natDecRepr n)).length = 8 ∧
    (∀ c ∈ zfillChars 8 (natDecRepr n), 48 ≤ c.toNat ∧ c.toNat ≤ 57) ∧
    digitsVal (zfillChars 8 (natDecRepr n)) = n := by
  have hdig := natDecRepr_digits n
  have hne := natDecRepr_ne_nil n
  have hlen : (natDecRepr n).length ≤ 8 := natDecRepr_length_le 8 (by omega) n hn
  rw [zfillChars_digits 8 (natDecRepr n) hdig hne]
  refine ⟨?_, ?_, ?_⟩
  · simp only [List.length_append, List.length_replicate]
    omega
  · intro c hc
    rcases List.mem_append.mp hc with hc | hc
    · have : c = '0' := List.eq_of_mem_replicate hc
      subst this
      have h48 : ('0' : Char).toNat = 48 := by decide
      omega
    · exact hdig c hc
  · rw [digitsVal_replicate_zero, digitsVal_natDecRepr]

/-! ### Behaviour of the descending `number` scan on reachable catalogs

In every state this program can produce, a present `number` field holds a
string; the following lemmas describe `keyLe` and `findMaxNumberDoc` on
such keys. -/

/-- Sort keys occurring in reachable catalogs: a missing field or a
string. -/
def SMKey (k : Option PyVal) : Prop :=
  k = Option.none ∨ ∃ s : String, k = some (PyVal.str s)

theorem keyLe_none_left (k : Option PyVal) (hk : SMKey k) :
    keyLe Option.none k = true := by
  rcases hk with rfl | ⟨s, rfl⟩ <;> rfl

theorem keyLe_str_none (s : String) :
    keyLe (some (PyVal.str s)) Option.none = false := rfl

theorem keyLe_str_str (s t : String) :
    keyLe (some (PyVal.str s)) (some (PyVal.str t)) = chLe s.data t.data := rfl

theorem keyLe_total_SM (a b : Option PyVal) (ha : SMKey a) (hb : SMKey b) :
    keyLe a b = true ∨ keyLe b a = true := by
  rcases ha with rfl | ⟨s, rfl⟩
  · left; exact keyLe_none_left b hb
  · rcases hb with rfl | ⟨t, rfl⟩
    · right; exact keyLe_none_left _ (Or.inr ⟨s, rfl⟩)
    · rw [keyLe_str_str, keyLe_str_str]
      exact chLe_total s.data t.data

theorem keyLe_trans_SM (a b c : Option PyVal)
    (ha : SMKey a) (hb : SMKey b) (hc : SMKey c)
    (hab : keyLe a b = true) (hbc : keyLe b c = true) : keyLe a c = true := by
  rcases ha with rfl | ⟨s, rfl⟩
  · exact keyLe_none_left c hc
  · rcases hb with rfl | ⟨t, rfl⟩
    · rw [keyLe_str_none] at hab
      exact absurd hab (by simp)
    · rcases hc with rfl | ⟨u, rfl⟩
      · rw [keyLe_str_none] at hbc
        exact absurd hbc (by simp)
      · rw [keyLe_str_str] at hab hbc ⊢
        exact chLe_trans s.data t.data u.data hab hbc

/-- Behaviour of the fold in `findMaxNumberDoc`, started from an already
seen document: it returns a document of maximal `number` key, the first
one among ties. -/
theorem findMax_fold_spec :
    ∀ (l : List Doc) (acc : Doc),
      (∀ d ∈ l, SMKey (numberKey d)) → SMKey (numberKey acc) →
      ∃ m, l.foldl findMaxStep (some acc) = some m ∧
        (m = acc ∨ m ∈ l) ∧
        keyLe (numberKey acc) (numberKey m) = true ∧
        (∀ d ∈ l, keyLe (numberKey d) (numberKey m) = true) := by
  intro l
  induction l with
  | nil =>
    intro acc _ hacc
    refine ⟨acc, rfl, Or.inl rfl, ?_, by simp⟩
    rcases keyLe_total_SM _ _ hacc hacc with h | h <;> exact h
  | cons d rest ih =>
    intro acc hl hacc
    have hd : SMKey (numberKey d) := hl d (List.mem_cons_self d rest)
    have hrest : ∀ x ∈ rest, SMKey (numberKey x) :=
      fun x hx => hl x (List.mem_cons_of_mem d hx)
    simp only [List.foldl_cons]
    by_cases hrepl :
        keyLe (numberKey acc) (numberKey d) = true ∧
        ¬ keyLe (numberKey d) (numberKey acc) = true
    · have hstep : findMaxStep (some acc) d = some d := by
        simp only [findMaxStep]
        rw [if_pos (by
          rw [Bool.and_eq_true, Bool.not_eq_true']
          exact ⟨hrepl.1, by simpa using hrepl.2⟩)]
      rw [hstep]
      obtain ⟨m, hm, hmem, hle, hall⟩ := ih d hrest hd
      refine ⟨m, hm, ?_, ?_, ?_⟩
      · rcases hmem with rfl | hmem
        · exact Or.inr (List.mem_cons_self m rest)
        · exact Or.inr (List.mem_cons_of_mem d hmem)
      · have hsm : SMKey (numberKey m) := by
          rcases hmem with rfl | hmem
          · exact hd
          · exact hrest m hmem
        exact keyLe_trans_SM _ _ _ hacc hd hsm hrepl.1 hle
      · intro x hx
        rcases List.mem_cons.mp hx with rfl | hx2
        · exact hle
        · exact hall x hx2
    · have hkeep : findMaxStep (some acc) d = some acc := by
        simp only [findMaxStep]
        rw [if_neg (by
          rw [Bool.and_eq_true, Bool.not_eq_true']
          rintro ⟨h1, h2⟩
          exact hrepl ⟨h1, by simp [h2]⟩)]
      rw [hkeep]
      have hdacc : keyLe (numberKey d) (numberKey acc) = true := by
        by_cases h1 : keyLe (numberKey acc) (numberKey d) = true
        · by_cases h2 : keyLe (numberKey d) (numberKey acc) = true
          · exact h2
          · exact absurd ⟨h1, h2⟩ hrepl
        · rcases keyLe_total_SM _ _ hacc hd with h | h
          · exact absurd h h1
          · exact h
      obtain ⟨m, hm, hmem, hle, hall⟩ := ih acc hrest hacc
      have hsm : SMKey (numberKey m) := by
        rcases hmem with rfl | hmem
        · exact hacc
        · exact hrest m hmem
      refine ⟨m, hm, ?_, hle, ?_⟩
      · rcases hmem with rfl | hmem
        · exact Or.inl rfl
        · exact Or.inr (List.mem_cons_of_mem d hmem)
      · intro x hx
        rcases List.mem_cons.mp hx with rfl | hx2
        · exact keyLe_trans_SM _ _ _ hd hacc hsm hdacc hle
        · exact hall x hx2

/-- On a nonempty catalog of reachable documents, `findMaxNumberDoc`
returns a member whose `number` key dominates every other. -/
theorem findMax_is_max (catalog : List Doc)
    (H : ∀ d ∈ catalog, SMKey (numberKey d)) (hne : catalog ≠ []) :
    ∃ m, findMaxNumberDoc catalog = some m ∧ m ∈ catalog ∧
      ∀ d ∈ catalog, keyLe (numberKey d) (numberKey m) = true := by
  match catalog, hne with
  | c :: rest, _ =>
    have hc : SMKey (numberKey c) := H c (List.mem_cons_self c rest)
    have hrest : ∀ x ∈ rest, SMKey (numberKey x) :=
      fun x hx => H x (List.mem_cons_of_mem c hx)
    have hstart : findMaxNumberDoc (c :: rest) = rest.foldl findMaxStep (some c) := by
      simp [findMaxNumberDoc, findMaxStep]
    obtain ⟨m, hm, hmem, hle, hall⟩ := findMax_fold_spec rest c hrest hc
    refine ⟨m, hstart.trans hm, ?_, ?_⟩
    · rcases hmem with rfl | hmem
      · exact List.mem_cons_self m rest
      · exact List.mem_cons_of_mem c hmem
    · intro d hd
      rcases List.mem_cons.mp hd with rfl | hd2
      · exact hle
      · exact hall d hd2

/-- `int()` of an all-digit string parses it by `digitsVal`. -/
theorem pyIntOfStr_digits (s : String) (hne : s.data ≠ [])
    (hdig : ∀ c ∈ s.data, 48 ≤ c.toNat ∧ c.toNat ≤ 57) :
    pyIntOfStr s = some (digitsVal s.data : Int) := by
  unfold pyIntOfStr
  match hd : s.data, hne with
  | c :: rest, _ =>
    rw [hd] at hdig
    have hc : 48 ≤ c.toNat ∧ c.toNat ≤ 57 :=
      hdig c (List.mem_cons_self c rest)
    have hneg : ¬ c = '-' := by
      rintro rfl
      have h45 : ('-' : Char).toNat = 45 := by decide
      omega
    have hpos : ¬ c = '+' := by
      rintro rfl
      have h43 : ('+' : Char).toNat = 43 := by decide
      omega
    have hall : allDigits (c :: rest) = true := by
      simp only [allDigits, List.all_eq_true]
      intro x hx
      have := hdig x hx
      simp only [Bool.and_eq_true, decide_eq_true_eq]
      omega
    simp only [pyIntOfChars, if_neg hneg, if_neg hpos, if_pos hall]

/-- `renderNumber` of a natural number is the zero-padded decimal
rendering. -/
theorem renderNumber_ofNat (k : Nat) :
    renderNumber (k : Int) = String.mk (zfillChars 8 (natDecRepr k)) := by
  unfold renderNumber intDecRepr
  rw [if_neg (by omega)]
  norm_num

/-- The claims C1, C2 and C10 all quantify over "reachable" catalog
states: every present `number` field holds a string. -/
def ReachableNumbers (catalog : List Doc) : Prop :=
  ∀ d ∈ catalog, SMKey (numberKey d)

/-- Abbreviation for the 8-digit zero-padded rendering of a natural
number, as produced by the allocator. -/
def mkZfill (n : Nat) : String := String.mk (zfillChars 8 (natDecRepr n))

/-- Allocation against a reachable catalog whose greatest (byte-wise
lexicographic) `number` string is `s`: the result is `s` parsed as an
integer, plus one, zero-padded to 8 digits. -/
theorem get_next_number_max (catalog : List Doc) (s : String)
    (H : ReachableNumbers catalog)
    (Hocc : ∃ d ∈ catalog, numberKey d = some (PyVal.str s))
    (Hmax : ∀ d ∈ catalog, ∀ t, numberKey d = some (PyVal.str t) →
      chLe t.data s.data = true)
    (hne : s.data ≠ [])
    (hdig : ∀ c ∈ s.data, 48 ≤ c.toNat ∧ c.toNat ≤ 57) :
    get_next_number catalog = Except.ok (mkZfill (digitsVal s.data + 1)) := by
  obtain ⟨d0, hd0mem, hd0num⟩ := Hocc
  have hcatne : catalog ≠ [] := by
    rintro rfl
    simp at hd0mem
  obtain ⟨m, hfm, hmmem, hall⟩ := findMax_is_max catalog H hcatne
  rcases H m hmmem with hnone | ⟨t, ht⟩
  · have hfalse := hall d0 hd0mem
    rw [hd0num, hnone, keyLe_str_none] at hfalse
    exact absurd hfalse (by simp)
  · have h1 : chLe t.data s.data = true := Hmax m hmmem t ht
    have h2 : chLe s.data t.data = true := by
      have hx := hall d0 hd0mem
      rw [hd0num, ht, keyLe_str_str] at hx
      exact hx
    have hts : t = s := string_data_inj (chLe_antisymm t.data s.data h1 h2)
    subst hts
    have hnum : dlookup m "number" = some (PyVal.str t) := ht
    have hp : pyInt (PyVal.str t) = some (digitsVal t.data : Int) :=
      pyIntOfStr_digits t hne hdig
    simp only [get_next_number, hfm, hnum, hp]
    have hc : (digitsVal t.data : Int) + 1 = ((digitsVal t.data + 1 : Nat) : Int) := by
      push_cast
      ring
    rw [hc, renderNumber_ofNat]
    rfl

/-- C2: For every reachable catalog state, allocation queries the document
with the maximum `number` field and returns that value parsed as an
integer plus one, formatted as an 8-digit zero-padded decimal string; if
the catalog contains no document with a `number` field, it returns
"00000001".  (The maximum is the one selected by the descending sort of
the query, i.e. the byte-wise lexicographically greatest string.) -/
theorem C2_allocation_algorithm (catalog : List Doc)
    (H : ReachableNumbers catalog) :
    ((∀ d ∈ catalog, numberKey d = Option.none) →
      get_next_number catalog = Except.ok "00000001") ∧
    (∀ s : String,
      (∃ d ∈ catalog, numberKey d = some (PyVal.str s)) →
      (∀ d ∈ catalog, ∀ t, numberKey d = some (PyVal.str t) →
        chLe t.data s.data = true) →
      s.data ≠ [] →
      (∀ c ∈ s.data, 48 ≤ c.toNat ∧ c.toNat ≤ 57) →
      get_next_number catalog = Except.ok (mkZfill (digitsVal s.data + 1))) := by
  constructor
  · intro hnone
    match hcat : catalog with
    | [] => rfl
    | c :: rest =>
      obtain ⟨m, hfm, hmmem, _⟩ := findMax_is_max (c :: rest) H (by simp)
      have hmnum : dlookup m "number" = Option.none := hnone m hmmem
      simp only [get_next_number, hfm, hmnum]
      rfl
  · intro s hocc hmax hne hdig
    exact get_next_number_max catalog s H hocc hmax hne hdig

/-- Witness for C2 at the concrete scenario from the specification:
catalog maximum "00000005" gives "00000006". -/
theorem C2_allocation_algorithm_witness :
    get_next_number [[("number", PyVal.str "00000005")]] =
      Except.ok "00000006" := by
  have h :=
    (C2_allocation_algorithm [[("number", PyVal.str "00000005")]]
      (by
        intro d hd
        simp only [List.mem_singleton] at hd
        subst hd
        exact Or.inr ⟨"00000005", rfl⟩)).2
    "00000005"
    ⟨[("number", PyVal.str "00000005")], by simp, rfl⟩
    (by
      intro d hd t ht
      simp only [List.mem_singleton] at hd
      subst hd
      have hts : PyVal.str "00000005" = PyVal.str t := by
        have : some (PyVal.str "00000005") = some (PyVal.str t) := ht
        exact Option.some.inj this
      cases hts
      decide)
    (by decide)
    (by decide)
  exact h.trans (by rfl)

/-- C10: for `m, n < 10^8`, numeric order of run numbers agrees with the
byte-wise lexicographic order of their 8-digit zero-padded renderings —
which is why the allocator's descending sort on the string `number` field
selects the numerically largest catalog-issued run number. -/
theorem C10_padded_order_iff (m n : Nat) (hm : m < 10 ^ 8) (hn : n < 10 ^ 8) :
    m ≤ n ↔
      chLe (renderNumber (m : Int)).data (renderNumber (n : Int)).data = true := by
  have hdm : (renderNumber (m : Int)).data = zfillChars 8 (natDecRepr m) := by
    rw [renderNumber_ofNat]
  have hdn : (renderNumber (n : Int)).data = zfillChars 8 (natDecRepr n) := by
    rw [renderNumber_ofNat]
  rw [hdm, hdn]
  obtain ⟨hlm, hdgm, hvm⟩ := zfill8_spec m hm
  obtain ⟨hln, hdgn, hvn⟩ := zfill8_spec n hn
  rw [chLe_digits_iff _ _ hdgm hdgn (by rw [hlm, hln])]
  rw [hvm, hvn]

/-- Witness for C10 at `m = 3`, `n = 12`. -/
theorem C10_padded_order_iff_witness :
    3 ≤ 12 ↔
      chLe (renderNumber ((3 : Nat) : Int)).data
        (renderNumber ((12 : Nat) : Int)).data = true :=
  C10_padded_order_iff 3 12 (by norm_num) (by norm_num)

/-! ### Allocation rounds: serial and interleaved

`_save` allocates a number with `get_next_number` and later inserts a
document carrying that number (`insert_measurement`); the two are separate
round trips.  `allocateRound` models one complete allocate-then-insert
round; `runSchedule` models several callers whose round trips interleave. -/

/-- One serial allocate-then-insert round: read the next number off the
catalog, then insert a document carrying it. -/
def allocateRound (catalog : List Doc) : Option (String × List Doc) :=
  match get_next_number catalog with
  | Except.error _ => Option.none
  | Except.ok n => some (n, catalog ++ [[("number", PyVal.str n)]])

/-- `r` serial allocate-then-insert rounds; returns the issued numbers in
order. -/
def allocateRounds : Nat → List Doc → List String × List Doc
  | 0, catalog => ([], catalog)
  | r + 1, catalog =>
    match allocateRound catalog with
    | Option.none => ([], catalog)
    | some (n, catalog2) =>
      let rest := allocateRounds r catalog2
      (n :: rest.1, rest.2)

/-- Catalog contents after `k` successful serial rounds from an empty
catalog. -/
def serialCatalog (k : Nat) : List Doc :=
  (List.range k).map (fun j => [("number", PyVal.str (mkZfill (j + 1)))])

theorem serialCatalog_reachable (k : Nat) : ReachableNumbers (serialCatalog k) := by
  intro d hd
  simp only [serialCatalog, List.mem_map] at hd
  obtain ⟨j, _, rfl⟩ := hd
  exact Or.inr ⟨mkZfill (j + 1), rfl⟩

theorem mkZfill_data (n : Nat) : (mkZfill n).data = zfillChars 8 (natDecRepr n) := rfl

/-- Allocation after `k` successful serial rounds issues number `k + 1`. -/
theorem get_next_number_serial (k : Nat) (hk : k < 10 ^ 8) :
    get_next_number (serialCatalog k) = Except.ok (mkZfill (k + 1)) := by
  match k with
  | 0 => rfl
  | k + 1 =>
    have hk8 : k + 1 < 10 ^ 8 := hk
    have hspec := zfill8_spec (k + 1) hk8
    have happ :=
      get_next_number_max (serialCatalog (k + 1)) (mkZfill (k + 1))
        (serialCatalog_reachable (k + 1))
        ⟨[("number", PyVal.str (mkZfill (k + 1)))],
          by
            simp only [serialCatalog, List.mem_map]
            exact ⟨k, List.mem_range.mpr (by omega), rfl⟩,
          rfl⟩
        (by
          intro d hd t ht
          simp only [serialCatalog, List.mem_map] at hd
          obtain ⟨j, hj, rfl⟩ := hd
          have hj8 : j + 1 < 10 ^ 8 := by
            have := List.mem_range.mp hj
            omega
          have hjs := zfill8_spec (j + 1) hj8
          have htt : t = mkZfill (j + 1) := by
            have hsome : some (PyVal.str (mkZfill (j + 1))) = some (PyVal.str t) := ht
            have := Option.some.inj hsome
            cases this
            rfl
          subst htt
          rw [mkZfill_data, mkZfill_data]
          rw [chLe_digits_iff _ _ hjs.2.1 hspec.2.1 (by rw [hjs.1, hspec.1])]
          rw [hjs.2.2, hspec.2.2]
          have := List.mem_range.mp hj
          omega)
        (by
          rw [mkZfill_data]
          intro habs
          have := hspec.1
          rw [habs] at this
          simp at this)
        (by rw [mkZfill_data]; exact hspec.2.1)
    rw [happ, mkZfill_data, hspec.2.2]

/-- Inserting the freshly issued number extends the serial catalog by one
round. -/
theorem serialCatalog_step (k : Nat) :
    serialCatalog k ++ [[("number", PyVal.str (mkZfill (k + 1)))]] =
      serialCatalog (k + 1) := by
  simp only [serialCatalog, List.range_succ, List.map_append, List.map_cons,
    List.map_nil]

/-- Serial rounds starting after `k` rounds issue `k+1, …, k+r`. -/
theorem allocateRounds_serial :
    ∀ r k : Nat, k + r ≤ 10 ^ 8 →
      allocateRounds r (serialCatalog k) =
        ((List.range r).map (fun j => mkZfill (k + j + 1)), serialCatalog (k + r)) := by
  intro r
  induction r with
  | zero =>
    intro k _
    simp [allocateRounds]
  | succ r ih =>
    intro k hk
    have hk8 : k < 10 ^ 8 := by omega
    have hround : allocateRound (serialCatalog k) =
        some (mkZfill (k + 1), serialCatalog (k + 1)) := by
      simp only [allocateRound, get_next_number_serial k hk8, serialCatalog_step]
    simp only [allocateRounds, hround]
    rw [ih (k + 1) (by omega)]
    simp only [Prod.mk.injEq]
    constructor
    · rw [List.range_succ_eq_map]
      simp only [List.map_cons, List.map_map]
      congr 1
      apply List.map_congr_left
      intro a _
      simp only [Function.comp_apply]
      congr 1
      omega
    · congr 1
      omega

/-- C1 (amended): the allocator is a read-then-increment, not an atomic
server-side increment; under *serial* (non-interleaved) execution of `N`
allocate-then-insert rounds against an initially empty reachable catalog
with `N ≤ 10^8`, the issued numbers are exactly
`"00000001", …, zfill8(N)` — no duplicates and no gaps. -/
theorem C1_serial_allocation (N : Nat) (hN : N ≤ 10 ^ 8) :
    (allocateRounds N []).1 = (List.range N).map (fun j => mkZfill (j + 1)) := by
  have h := allocateRounds_serial N 0 (by omega)
  have h0 : serialCatalog 0 = [] := rfl
  rw [h0] at h
  rw [h]
  simp

/-- Witness for the amended C1 at `N = 3`. -/
theorem C1_serial_allocation_witness :
    (allocateRounds 3 []).1 = ["00000001", "00000002", "00000003"] :=
  (C1_serial_allocation 3 (by norm_num)).trans (by rfl)

/-! ### Interleaved allocation: the read-then-increment races -/

/-- An event of the concurrent allocation model: one caller's catalog
read (`get_next_number`) or its subsequent document insert. -/
inductive AllocEvent where
  | read (caller : Nat) : AllocEvent
  | insert (caller : Nat) : AllocEvent

/-- State of the concurrent allocation model. -/
structure AllocState where
  catalog : List Doc
  pending : List (Nat × String)
  issued : List String

/-- Lookup of a caller's pending number. -/
def pendingLookup : List (Nat × String) → Nat → Option String
  | [], _ => Option.none
  | (c0, n) :: rest, c => if c0 = c then some n else pendingLookup rest c

/-- One step of the interleaving: a read computes `get_next_number`
against the current catalog; an insert writes the document carrying the
number that caller read earlier. -/
def allocStep (st : AllocState) : AllocEvent → AllocState
  | AllocEvent.read caller =>
    match get_next_number st.catalog with
    | Except.error _ => st
    | Except.ok n => { st with pending := st.pending ++ [(caller, n)] }
  | AllocEvent.insert caller =>
    match pendingLookup st.pending caller with
    | Option.none => st
    | some n =>
      { catalog := st.catalog ++ [[("number", PyVal.str n)]],
        pending := st.pending,
        issued := st.issued ++ [n] }

/-- Run a schedule of interleaved events from the empty catalog. -/
def runSchedule (evs : List AllocEvent) : AllocState :=
  evs.foldl allocStep ⟨[], [], []⟩

/-- Counterexample to C1 as stated: with two concurrent callers whose
catalog reads both happen before either insert (a legal interleaving of
the two round trips), both callers are issued "00000001" — the issued
numbers are not `{1, 2}` and contain a duplicate.  The allocation is a
read followed by an independent increment, not an atomic server-side
increment. -/
theorem C1_concurrent_counterexample :
    (runSchedule [AllocEvent.read 0, AllocEvent.read 1,
        AllocEvent.insert 0, AllocEvent.insert 1]).issued =
      ["00000001", "00000001"] ∧
    ¬ (runSchedule [AllocEvent.read 0, AllocEvent.read 1,
        AllocEvent.insert 0, AllocEvent.insert 1]).issued.Nodup := by
  constructor
  · rfl
  · intro hnd
    have h : (runSchedule [AllocEvent.read 0, AllocEvent.read 1,
        AllocEvent.insert 0, AllocEvent.insert 1]).issued =
      ["00000001", "00000001"] := rfl
    rw [h] at hnd
    simp at hnd

/-! ### The Document Builder (`Base._build_document` in `daq/_base.py`) -/

-- Best-effort text rendering: Python `str(value)` for the values that
-- reach the fallback branch of the flattening loop.  The precise text of
-- composite renderings is a model; `str()` of an opaque object raises
-- exactly when its `obj` payload is `Option.none`.
mutual

/-- Python `str(v)` for built-in values (total). -/
def pyRepr : PyVal → String
  | PyVal.none => "None"
  | PyVal.bool b => if b then "True" else "False"
  | PyVal.int i => String.mk (intDecRepr i)
  | PyVal.float q =>
    String.mk (intDecRepr q.num) ++ "/" ++ String.mk (intDecRepr (q.den : Int))
  | PyVal.str s => s
  | PyVal.pylist l => "[" ++ pyReprList l ++ "]"
  | PyVal.dict l => "\x7b" ++ pyReprEntries l ++ "\x7d"
  | PyVal.npArray l => "array([" ++ pyReprList l ++ "])"
  | PyVal.npInt i => String.mk (intDecRepr i)
  | PyVal.npFloat q =>
    String.mk (intDecRepr q.num) ++ "/" ++ String.mk (intDecRepr (q.den : Int))
  | PyVal.obj s => s.getD "object"

/-- Comma-separated rendering of list elements. -/
def pyReprList : List PyVal → String
  | [] => ""
  | [v] => pyRepr v
  | v :: rest => pyRepr v ++ ", " ++ pyReprList rest

/-- Comma-separated rendering of dict entries. -/
def pyReprEntries : List (String × PyVal) → String
  | [] => ""
  | [(k, v)] => k ++ ": " ++ pyRepr v
  | (k, v) :: rest => k ++ ": " ++ pyRepr v ++ ", " ++ pyReprEntries rest

end

/-- Numeric values: the ones Python arithmetic and `float()` accept
directly. -/
def isNumeric : PyVal → Bool
  | PyVal.int _ => true
  | PyVal.npInt _ => true
  | PyVal.float _ => true
  | PyVal.npFloat _ => true
  | PyVal.bool _ => true
  | _ => false

/-- Python `float(v)`: numbers and booleans convert; decimal integer
literals in strings parse; everything else raises (`Option.none` models
the `ValueError`/`TypeError` caught by the extraction). -/
def pyFloat : PyVal → Option ℚ
  | PyVal.int i => some (i : ℚ)
  | PyVal.npInt i => some (i : ℚ)
  | PyVal.float q => some q
  | PyVal.npFloat q => some q
  | PyVal.bool b => some (if b then 1 else 0)
  | PyVal.str s =>
    match pyIntOfChars s.data with
    | some i => some (i : ℚ)
    | Option.none => Option.none
  | _ => Option.none

/-- Python `v != 0` negated: true when `v` equals the integer zero. -/
def pyEqZero (v : PyVal) : Bool :=
  if isNumeric v then decide (numQ v = 0) else false

/-- Python `a / b` on the raw values; `Option.none` models the
`TypeError` raised on non-numeric operands. -/
def pyDiv (a b : PyVal) : Option ℚ :=
  if isNumeric a && isNumeric b then some (numQ a / numQ b)
  else Option.none

/-- One guarded extraction step of `_build_document`: if the source key
is present in the fit map, convert it with `float()` and store it under
the destination key; a conversion failure aborts the surrounding `try`
with the document built so far. -/
def addFitField (fit : List (String × PyVal)) (src dst : String) (doc : Doc) :
    Except Doc Doc :=
  match dlookup fit src with
  | Option.none => Except.ok doc
  | some v =>
    match pyFloat v with
    | Option.none => Except.error doc
    | some q => Except.ok (dictSet doc dst (PyVal.float q))

/-- The kappa step of `_build_document`: if both `fr` and `Qc_dia_corr`
are present and `Qc_dia_corr != 0`, store `float(fr / Qc_dia_corr)` under
`fit_kappa`; a division type failure aborts with the document so far. -/
def addKappa (fit : List (String × PyVal)) (doc : Doc) : Except Doc Doc :=
  match dlookup fit "fr", dlookup fit "Qc_dia_corr" with
  | some fr, some qc =>
    if pyEqZero qc = true then Except.ok doc
    else
      match pyDiv fr qc with
      | some q => Except.ok (dictSet doc "fit_kappa" (PyVal.float q))
      | Option.none => Except.error doc
  | _, _ => Except.ok doc

/-- The eight `(source key, document key)` pairs extracted from the fit
map, in program order. -/
def fitSteps : List (String × String) :=
  [("fr", "fit_fr"), ("fr_err", "fit_fr_err"),
   ("Qi_dia_corr", "fit_Qi"), ("Qi_dia_corr_err", "fit_Qi_err"),
   ("Qc_dia_corr", "fit_Qc"), ("absQc_err", "fit_Qc_err"),
   ("Ql", "fit_Ql"), ("Ql_err", "fit_Ql_err")]

/-- Run the extraction steps in order, then the kappa step; the first
failure aborts the whole `try` block with the document built so far. -/
def runFitSteps (fit : List (String × PyVal)) :
    List (String × String) → Doc → Except Doc Doc
  | [], doc => addKappa fit doc
  | (src, dst) :: rest, doc =>
    match addFitField fit src dst doc with
    | Except.ok d => runFitSteps fit rest d
    | Except.error d => Except.error d

/-- Document state after the `try`/`except` around the fit extraction:
both the normal and the caught-exception path keep the document built so
far. -/
def exVal : Except Doc Doc → Doc
  | Except.ok d => d
  | Except.error d => d

/-- The whole fit-extraction block of `_build_document`. -/
def extractFitResults (fit : List (String × PyVal)) (doc : Doc) : Doc :=
  exVal (runFitSteps fit fitSteps doc)

/-- The fixed set of large-array field names excluded from catalog
documents. -/
def excludedArrayFields : List String :=
  ["freq_arr", "resp_arr", "pixel_i", "pixel_q",
   "lsb", "usb", "freqs_usb", "freqs_lsb"]

/-- Conversion applied by the flattening loop of `_build_document`:
numpy arrays become lists, numpy scalars become native scalars, native
scalars and `None` are stored as-is, and anything else is converted with
`str()` — whose failure (`Option.none`) silently drops the field. -/
def flattenValue : PyVal → Option PyVal
  | PyVal.npArray l => some (PyVal.pylist l)
  | PyVal.npInt i => some (PyVal.int i)
  | PyVal.npFloat q => some (PyVal.float q)
  | PyVal.int i => some (PyVal.int i)
  | PyVal.float q => some (PyVal.float q)
  | PyVal.str s => some (PyVal.str s)
  | PyVal.bool b => some (PyVal.bool b)
  | PyVal.none => some PyVal.none
  | PyVal.pylist l => some (PyVal.str (pyRepr (PyVal.pylist l)))
  | PyVal.dict l => some (PyVal.str (pyRepr (PyVal.dict l)))
  | PyVal.obj (some s) => some (PyVal.str s)
  | PyVal.obj Option.none => Option.none

/-- Python `name.startswith("_")`: the first character is an
underscore. -/
def headIsUnderscore (name : String) : Bool :=
  match name.data with
  | [] => false
  | c :: _ => c = '_'

/-- The four `continue` conditions of the attribute loop of
`_build_document`: private names, the metadata fields already added, the
fit map handled separately, and the large-array exclusion list. -/
def skipAttr (name : String) : Bool :=
  headIsUnderscore name || name == "device" || name == "filter" ||
  name == "notes" || name == "fit_results" ||
  decide (name ∈ excludedArrayFields)

/-- One iteration of the attribute loop of `_build_document`. -/
def buildLoopStep (doc : Doc) (p : String × PyVal) : Doc :=
  if skipAttr p.1 then doc
  else
    match flattenValue p.2 with
    | some v => dictSet doc p.1 v
    | Option.none => doc

/-- `Base._build_document`: the seven fixed fields, then the fit-metric
extraction, then the flattening loop over the instance attributes.  The
Python function never throws; correspondingly this model is total, with
every internal failure handled by `Except`/`Option`. -/
def build_document (record : Doc) (utcNow : String) (number : String)
    (measurement_type : String) (file_path : String) (device : PyVal)
    (filter_name : PyVal) (notes : PyVal) : Doc :=
  let document : Doc :=
    [("utc_time", PyVal.str utcNow),
     ("number", PyVal.str number),
     ("type", PyVal.str measurement_type),
     ("file", PyVal.str file_path),
     ("device", device),
     ("filter", filter_name),
     ("notes", notes)]
  let document2 : Doc :=
    match dlookup record "fit_results" with
    | some (PyVal.dict fit) => extractFitResults fit document
    | _ => document
  record.foldl buildLoopStep document2

/-! ### Preservation lemmas for the Document Builder -/

/-- Key presence in a document. -/
def hasKey (doc : Doc) (k : String) : Prop := ∃ v, dlookup doc k = some v

theorem hasKey_dictSet (doc : Doc) (k k2 : String) (v : PyVal)
    (h : hasKey doc k) : hasKey (dictSet doc k2 v) k := by
  by_cases he : k2 = k
  · subst he
    exact ⟨v, dlookup_dictSet_self doc k2 v⟩
  · obtain ⟨w, hw⟩ := h
    exact ⟨w, by rw [dlookup_dictSet_ne doc k2 k v he]; exact hw⟩

/-- A successful lookup comes from an entry of the list. -/
theorem dlookup_mem {α : Type} :
    ∀ (l : List (String × α)) (k : String) (v : α),
      dlookup l k = some v → (k, v) ∈ l := by
  intro l
  induction l with
  | nil => intro k v h; simp [dlookup] at h
  | cons p rest ih =>
    intro k v h
    match p with
    | (k0, v0) =>
      simp only [dlookup] at h
      by_cases hk : k0 = k
      · rw [if_pos hk] at h
        subst hk
        cases h
        exact List.mem_cons_self _ _
      · rw [if_neg hk] at h
        exact List.mem_cons_of_mem _ (ih k v h)

theorem addFitField_cases (fit : List (String × PyVal)) (src dst : String)
    (doc : Doc) :
    addFitField fit src dst doc = Except.ok doc ∨
    (∃ q, addFitField fit src dst doc =
      Except.ok (dictSet doc dst (PyVal.float q))) ∨
    addFitField fit src dst doc = Except.error doc := by
  cases hv : dlookup fit src with
  | none =>
    left
    simp only [addFitField, hv]
  | some v =>
    cases hq : pyFloat v with
    | none =>
      right; right
      simp only [addFitField, hv, hq]
    | some q =>
      right; left
      exact ⟨q, by simp only [addFitField, hv, hq]⟩

theorem addKappa_cases (fit : List (String × PyVal)) (doc : Doc) :
    addKappa fit doc = Except.ok doc ∨
    (∃ q, addKappa fit doc =
      Except.ok (dictSet doc "fit_kappa" (PyVal.float q))) ∨
    addKappa fit doc = Except.error doc := by
  cases hfr : dlookup fit "fr" with
  | none =>
    cases hqc : dlookup fit "Qc_dia_corr" with
    | none => exact Or.inl (by simp only [addKappa, hfr, hqc])
    | some qc => exact Or.inl (by simp only [addKappa, hfr, hqc])
  | some fr =>
    cases hqc : dlookup fit "Qc_dia_corr" with
    | none => exact Or.inl (by simp only [addKappa, hfr, hqc])
    | some qc =>
      by_cases hz : pyEqZero qc = true
      · exact Or.inl (by simp only [addKappa, hfr, hqc, if_pos hz])
      · cases hq : pyDiv fr qc with
        | none =>
          exact Or.inr (Or.inr (by
            simp only [addKappa, hfr, hqc, if_neg hz, hq]))
        | some q =>
          exact Or.inr (Or.inl ⟨q, by
            simp only [addKappa, hfr, hqc, if_neg hz, hq]⟩)

/-- The fit extraction never touches a key that is neither one of its
destination keys nor `fit_kappa`. -/
theorem runFitSteps_lookup_ne (fit : List (String × PyVal)) (k : String)
    (hk : k ≠ "fit_kappa") :
    ∀ steps : List (String × String), (∀ s ∈ steps, s.2 ≠ k) →
      ∀ doc : Doc,
        dlookup (exVal (runFitSteps fit steps doc)) k = dlookup doc k := by
  intro steps
  induction steps with
  | nil =>
    intro _ doc
    show dlookup (exVal (addKappa fit doc)) k = dlookup doc k
    rcases addKappa_cases fit doc with h | ⟨q, h⟩ | h
    · rw [h]
      rfl
    · rw [h]
      exact dlookup_dictSet_ne doc "fit_kappa" k _ (Ne.symm hk)
    · rw [h]
      rfl
  | cons s rest ih =>
    intro hs doc
    match s with
    | (src, dst) =>
      have hdst : dst ≠ k := hs (src, dst) (List.mem_cons_self _ _)
      have hrest : ∀ x ∈ rest, x.2 ≠ k :=
        fun x hx => hs x (List.mem_cons_of_mem _ hx)
      rcases addFitField_cases fit src dst doc with h | ⟨q, h⟩ | h
      · simp only [runFitSteps, h]
        exact ih hrest doc
      · simp only [runFitSteps, h]
        rw [ih hrest (dictSet doc dst (PyVal.float q))]
        exact dlookup_dictSet_ne doc dst k _ hdst
      · simp only [runFitSteps, h]
        rfl

/-- The fit extraction preserves key presence. -/
theorem runFitSteps_hasKey (fit : List (String × PyVal)) (k : String) :
    ∀ (steps : List (String × String)) (doc : Doc),
      hasKey doc k → hasKey (exVal (runFitSteps fit steps doc)) k := by
  intro steps
  induction steps with
  | nil =>
    intro doc h
    show hasKey (exVal (addKappa fit doc)) k
    rcases addKappa_cases fit doc with he | ⟨q, he⟩ | he
    · rw [he]; exact h
    · rw [he]; exact hasKey_dictSet doc k "fit_kappa" _ h
    · rw [he]; exact h
  | cons s rest ih =>
    intro doc h
    match s with
    | (src, dst) =>
      rcases addFitField_cases fit src dst doc with he | ⟨q, he⟩ | he
      · simp only [runFitSteps, he]
        exact ih doc h
      · simp only [runFitSteps, he]
        exact ih _ (hasKey_dictSet doc k dst _ h)
      · simp only [runFitSteps, he]
        exact h

/-- With `Qc_dia_corr` missing or equal to zero, the kappa step is a
no-op. -/
theorem addKappa_skip (fit : List (String × PyVal)) (doc : Doc)
    (hz : dlookup fit "Qc_dia_corr" = Option.none ∨
      ∃ qc, dlookup fit "Qc_dia_corr" = some qc ∧ pyEqZero qc = true) :
    addKappa fit doc = Except.ok doc := by
  cases hfr : dlookup fit "fr" with
  | none =>
    rcases hz with hz | ⟨qc, hqc, _⟩
    · simp [addKappa, hfr, hz]
    · simp [addKappa, hfr, hqc]
  | some fr =>
    rcases hz with hz | ⟨qc, hqc, hez⟩
    · simp [addKappa, hfr, hz]
    · simp [addKappa, hfr, hqc, hez]

/-- If `Qc_dia_corr` is missing or compares equal to zero, the extraction
never writes `fit_kappa`. -/
theorem runFitSteps_kappa_skip (fit : List (String × PyVal))
    (hz : dlookup fit "Qc_dia_corr" = Option.none ∨
      ∃ qc, dlookup fit "Qc_dia_corr" = some qc ∧ pyEqZero qc = true) :
    ∀ steps : List (String × String), (∀ s ∈ steps, s.2 ≠ "fit_kappa") →
      ∀ doc : Doc,
        dlookup (exVal (runFitSteps fit steps doc)) "fit_kappa" =
          dlookup doc "fit_kappa" := by
  intro steps
  induction steps with
  | nil =>
    intro _ doc
    show dlookup (exVal (addKappa fit doc)) "fit_kappa" = dlookup doc "fit_kappa"
    rw [addKappa_skip fit doc hz]
    rfl
  | cons s rest ih =>
    intro hs doc
    match s with
    | (src, dst) =>
      have hdst : dst ≠ "fit_kappa" := hs (src, dst) (List.mem_cons_self _ _)
      have hrest : ∀ x ∈ rest, x.2 ≠ "fit_kappa" :=
        fun x hx => hs x (List.mem_cons_of_mem _ hx)
      rcases addFitField_cases fit src dst doc with he | ⟨q, he⟩ | he
      · simp only [runFitSteps, he]
        exact ih hrest doc
      · simp only [runFitSteps, he]
        rw [ih hrest (dictSet doc dst (PyVal.float q))]
        exact dlookup_dictSet_ne doc dst "fit_kappa" _ hdst
      · simp only [runFitSteps, he]
        rfl

theorem pyFloat_numeric (v : PyVal) (h : isNumeric v = true) :
    pyFloat v = some (numQ v) := by
  cases v <;> simp [isNumeric] at h <;> rfl

/-- With an all-numeric fit map, every conversion step succeeds and the
extraction reaches the kappa step. -/
theorem runFitSteps_numeric (fit : List (String × PyVal))
    (hnum : ∀ p ∈ fit, isNumeric p.2 = true) :
    ∀ (steps : List (String × String)) (doc : Doc),
      ∃ d, runFitSteps fit steps doc = addKappa fit d := by
  intro steps
  induction steps with
  | nil => intro doc; exact ⟨doc, rfl⟩
  | cons s rest ih =>
    intro doc
    match s with
    | (src, dst) =>
      cases hv : dlookup fit src with
      | none =>
        have hstep : addFitField fit src dst doc = Except.ok doc := by
          simp [addFitField, hv]
        simp only [runFitSteps, hstep]
        exact ih doc
      | some v =>
        have hnv : isNumeric v = true := hnum (src, v) (dlookup_mem fit src v hv)
        have hstep : addFitField fit src dst doc =
            Except.ok (dictSet doc dst (PyVal.float (numQ v))) := by
          simp [addFitField, hv, pyFloat_numeric v hnv]
        simp only [runFitSteps, hstep]
        exact ih _

theorem addKappa_success (fit : List (String × PyVal)) (doc : Doc)
    (fr qc : PyVal)
    (hfr : dlookup fit "fr" = some fr)
    (hqc : dlookup fit "Qc_dia_corr" = some qc)
    (hnfr : isNumeric fr = true) (hnqc : isNumeric qc = true)
    (hnz : numQ qc ≠ 0) :
    addKappa fit doc =
      Except.ok (dictSet doc "fit_kappa" (PyVal.float (numQ fr / numQ qc))) := by
  have hez : ¬ pyEqZero qc = true := by
    unfold pyEqZero
    rw [if_pos hnqc]
    simp [hnz]
  have hdiv : pyDiv fr qc = some (numQ fr / numQ qc) := by
    unfold pyDiv
    rw [if_pos (by simp [hnfr, hnqc])]
  simp [addKappa, hfr, hqc, hez, hdiv]

/-! ### Lemmas about the flattening loop -/

/-- The loop never touches a key that is not an attribute name of the
record. -/
theorem loop_lookup_ne (k : String) :
    ∀ (record : List (String × PyVal)) (doc : Doc),
      (∀ p ∈ record, p.1 ≠ k) →
      dlookup (record.foldl buildLoopStep doc) k = dlookup doc k := by
  intro record
  induction record with
  | nil => intro doc _; rfl
  | cons p rest ih =>
    intro doc hp
    have hpk : p.1 ≠ k := hp p (List.mem_cons_self _ _)
    simp only [List.foldl_cons]
    rw [ih _ (fun x hx => hp x (List.mem_cons_of_mem _ hx))]
    unfold buildLoopStep
    by_cases hs : skipAttr p.1 = true
    · rw [if_pos hs]
    · rw [if_neg hs]
      cases flattenValue p.2 with
      | none => rfl
      | some v => exact dlookup_dictSet_ne doc p.1 k v hpk

/-- The loop preserves key presence. -/
theorem loop_hasKey (k : String) :
    ∀ (record : List (String × PyVal)) (doc : Doc),
      hasKey doc k → hasKey (record.foldl buildLoopStep doc) k := by
  intro record
  induction record with
  | nil => intro doc h; exact h
  | cons p rest ih =>
    intro doc h
    simp only [List.foldl_cons]
    apply ih
    unfold buildLoopStep
    by_cases hs : skipAttr p.1 = true
    · rw [if_pos hs]; exact h
    · rw [if_neg hs]
      cases flattenValue p.2 with
      | none => exact h
      | some v => exact hasKey_dictSet doc k p.1 v h

/-- The loop never writes an excluded large-array field name. -/
theorem loop_excluded (k : String) (hk : k ∈ excludedArrayFields) :
    ∀ (record : List (String × PyVal)) (doc : Doc),
      dlookup (record.foldl buildLoopStep doc) k = dlookup doc k := by
  intro record
  induction record with
  | nil => intro doc; rfl
  | cons p rest ih =>
    intro doc
    simp only [List.foldl_cons]
    rw [ih _]
    unfold buildLoopStep
    by_cases hs : skipAttr p.1 = true
    · rw [if_pos hs]
    · rw [if_neg hs]
      have hpk : p.1 ≠ k := by
        intro he
        subst he
        have : decide (p.1 ∈ excludedArrayFields) = true := by
          simp [hk]
        unfold skipAttr at hs
        simp [this] at hs
      cases flattenValue p.2 with
      | none => rfl
      | some v => exact dlookup_dictSet_ne doc p.1 k v hpk

/-! ### Claims about the Document Builder -/

/-- C5: for every record and run number the document builder returns
normally (the model is a total function, with every internal failure
handled by `Except`/`Option`, mirroring the Python guards), and the
returned document always contains the fields `utc_time`, `number`,
`type`, `file`, `device`, `filter` and `notes`. -/
theorem C5_base_fields_always_present (record : Doc)
    (utcNow number mtype path : String) (device filt notes : PyVal) :
    ∀ k ∈ (["utc_time", "number", "type", "file",
        "device", "filter", "notes"] : List String),
      ∃ v, dlookup
        (build_document record utcNow number mtype path device filt notes)
        k = some v := by
  intro k hk
  have hinit : hasKey
      [("utc_time", PyVal.str utcNow), ("number", PyVal.str number),
       ("type", PyVal.str mtype), ("file", PyVal.str path),
       ("device", device), ("filter", filt), ("notes", notes)] k := by
    fin_cases hk <;> exact ⟨_, rfl⟩
  show hasKey (build_document record utcNow number mtype path device filt notes) k
  simp only [build_document]
  apply loop_hasKey
  cases hfit : dlookup record "fit_results" with
  | none => exact hinit
  | some v =>
    cases v <;> first
      | exact runFitSteps_hasKey _ k fitSteps _ hinit
      | exact hinit

/-- Witness for C5 on a concrete record. -/
theorem C5_base_fields_always_present_witness :
    ∃ v, dlookup
      (build_document [("amp", PyVal.float 1)] "2024" "00000001" "sweep"
        "f.h5" (PyVal.str "Fridge1") PyVal.none PyVal.none)
      "device" = some v :=
  C5_base_fields_always_present [("amp", PyVal.float 1)] "2024" "00000001"
    "sweep" "f.h5" (PyVal.str "Fridge1") PyVal.none PyVal.none
    "device" (by simp)

/-- C7: for every record, the catalog document contains none of the
designated large-array field names, regardless of the values stored under
those names. -/
theorem C7_no_large_arrays_in_document (record : Doc)
    (utcNow number mtype path : String) (device filt notes : PyVal) :
    ∀ k ∈ excludedArrayFields,
      dlookup
        (build_document record utcNow number mtype path device filt notes)
        k = Option.none := by
  intro k hk
  have hk1 : k ≠ "fit_kappa" := by
    fin_cases hk <;> decide
  have hk2 : ∀ s ∈ fitSteps, s.2 ≠ k := by
    fin_cases hk <;> decide
  have hinit : dlookup
      [("utc_time", PyVal.str utcNow), ("number", PyVal.str number),
       ("type", PyVal.str mtype), ("file", PyVal.str path),
       ("device", device), ("filter", filt), ("notes", notes)] k =
      Option.none := by
    fin_cases hk <;> rfl
  simp only [build_document]
  rw [loop_excluded k hk record _]
  cases hfit : dlookup record "fit_results" with
  | none => exact hinit
  | some v =>
    cases v <;> first
      | (show dlookup (extractFitResults _ _) k = Option.none
         simp only [extractFitResults]
         rw [runFitSteps_lookup_ne _ k hk1 fitSteps hk2 _]
         exact hinit)
      | exact hinit

/-- Witness for C7: a record storing a large array under `freq_arr`
still yields a document without that key. -/
theorem C7_no_large_arrays_in_document_witness :
    dlookup
      (build_document
        [("freq_arr", PyVal.npArray [PyVal.float 1, PyVal.float 2])]
        "2024" "00000001" "sweep" "f.h5" (PyVal.str "Fridge1")
        PyVal.none PyVal.none)
      "freq_arr" = Option.none :=
  C7_no_large_arrays_in_document
    [("freq_arr", PyVal.npArray [PyVal.float 1, PyVal.float 2])]
    "2024" "00000001" "sweep" "f.h5" (PyVal.str "Fridge1")
    PyVal.none PyVal.none "freq_arr" (by simp [excludedArrayFields])

/-- C6: with a numeric fit map containing `fr` and a nonzero
`Qc_dia_corr`, the built document carries
`fit_kappa = fr / Qc_dia_corr`; with `Qc_dia_corr` zero or missing, no
`fit_kappa` field is produced (and, the model being total, no division
fault occurs).  The record is assumed not to carry a `fit_kappa`
attribute of its own, which the flattening loop would copy over the
derived field. -/
theorem C6_fit_kappa (record : Doc) (utcNow number mtype path : String)
    (device filt notes : PyVal) (fit : List (String × PyVal))
    (hfit : dlookup record "fit_results" = some (PyVal.dict fit))
    (hattr : ∀ p ∈ record, p.1 ≠ "fit_kappa") :
    ((∀ p ∈ fit, isNumeric p.2 = true) →
      ∀ fr qc, dlookup fit "fr" = some fr →
        dlookup fit "Qc_dia_corr" = some qc → numQ qc ≠ 0 →
        dlookup
          (build_document record utcNow number mtype path device filt notes)
          "fit_kappa" = some (PyVal.float (numQ fr / numQ qc))) ∧
    ((dlookup fit "Qc_dia_corr" = Option.none ∨
        (∃ qc, dlookup fit "Qc_dia_corr" = some qc ∧ pyEqZero qc = true)) →
      dlookup
        (build_document record utcNow number mtype path device filt notes)
        "fit_kappa" = Option.none) := by
  constructor
  · intro hnum fr qc hfr hqc hnz
    simp only [build_document]
    rw [loop_lookup_ne "fit_kappa" record _ hattr]
    simp only [hfit]
    show dlookup (extractFitResults fit _) "fit_kappa" = _
    simp only [extractFitResults]
    obtain ⟨d, hd⟩ := runFitSteps_numeric fit hnum fitSteps _
    rw [hd, addKappa_success fit d fr qc hfr hqc
      (hnum (("fr", fr)) (dlookup_mem fit "fr" fr hfr))
      (hnum (("Qc_dia_corr", qc)) (dlookup_mem fit "Qc_dia_corr" qc hqc))
      hnz]
    exact dlookup_dictSet_self d "fit_kappa" _
  · intro hz
    simp only [build_document]
    rw [loop_lookup_ne "fit_kappa" record _ hattr]
    simp only [hfit]
    show dlookup (extractFitResults fit _) "fit_kappa" = _
    simp only [extractFitResults]
    rw [runFitSteps_kappa_skip fit hz fitSteps (by decide) _]
    rfl

/-- Witness for C6 reproducing the concrete scenario of the
specification: fit map
`fr = 5.1e9, Qi_dia_corr = 1e5, Qc_dia_corr = 2e4` gives
`fit_fr = 5.1e9`, `fit_Qi = 1e5`, `fit_Qc = 2e4` and
`fit_kappa = 255000`. -/
theorem C6_fit_kappa_witness :
    dlookup
      (build_document
        [("fit_results", PyVal.dict
          [("fr", PyVal.float 5.1e9), ("Qi_dia_corr", PyVal.float 1e5),
           ("Qc_dia_corr", PyVal.float 2e4)])]
        "2024" "00000001" "sweep" "f.h5" (PyVal.str "Fridge1")
        PyVal.none PyVal.none)
      "fit_kappa" = some (PyVal.float 255000) ∧
    dlookup
      (build_document
        [("fit_results", PyVal.dict
          [("fr", PyVal.float 5.1e9), ("Qi_dia_corr", PyVal.float 1e5),
           ("Qc_dia_corr", PyVal.float 2e4)])]
        "2024" "00000001" "sweep" "f.h5" (PyVal.str "Fridge1")
        PyVal.none PyVal.none)
      "fit_fr" = some (PyVal.float 5.1e9) ∧
    dlookup
      (build_document
        [("fit_results", PyVal.dict
          [("fr", PyVal.float 5.1e9), ("Qi_dia_corr", PyVal.float 1e5),
           ("Qc_dia_corr", PyVal.float 2e4)])]
        "2024" "00000001" "sweep" "f.h5" (PyVal.str "Fridge1")
        PyVal.none PyVal.none)
      "fit_Qi" = some (PyVal.float 1e5) ∧
    dlookup
      (build_document
        [("fit_results", PyVal.dict
          [("fr", PyVal.float 5.1e9), ("Qi_dia_corr", PyVal.float 1e5),
           ("Qc_dia_corr", PyVal.float 2e4)])]
        "2024" "00000001" "sweep" "f.h5" (PyVal.str "Fridge1")
        PyVal.none PyVal.none)
      "fit_Qc" = some (PyVal.float 2e4) := by
  refine ⟨?_, ?_, ?_, ?_⟩
  · have h :=
      (C6_fit_kappa
        [("fit_results", PyVal.dict
          [("fr", PyVal.float 5.1e9), ("Qi_dia_corr", PyVal.float 1e5),
           ("Qc_dia_corr", PyVal.float 2e4)])]
        "2024" "00000001" "sweep" "f.h5" (PyVal.str "Fridge1")
        PyVal.none PyVal.none
        [("fr", PyVal.float 5.1e9), ("Qi_dia_corr", PyVal.float 1e5),
         ("Qc_dia_corr", PyVal.float 2e4)]
        rfl
        (by
          intro p hp
          simp only [List.mem_singleton] at hp
          subst hp
          decide)).1
      (by
        intro p hp
        fin_cases hp <;> rfl)
      (PyVal.float 5.1e9) (PyVal.float 2e4) rfl rfl (by norm_num [numQ])
    rw [h]
    norm_num [numQ]
  · norm_num [build_document, dlookup, dictSet, buildLoopStep, skipAttr,
      headIsUnderscore, excludedArrayFields, extractFitResults, runFitSteps,
      fitSteps, addFitField, addKappa, pyFloat, pyEqZero, pyDiv, isNumeric,
      numQ, exVal]
    rfl
  · norm_num [build_document, dlookup, dictSet, buildLoopStep, skipAttr,
      headIsUnderscore, excludedArrayFields, extractFitResults, runFitSteps,
      fitSteps, addFitField, addKappa, pyFloat, pyEqZero, pyDiv, isNumeric,
      numQ, exVal]
    rfl
  · norm_num [build_document, dlookup, dictSet, buildLoopStep, skipAttr,
      headIsUnderscore, excludedArrayFields, extractFitResults, runFitSteps,
      fitSteps, addFitField, addKappa, pyFloat, pyEqZero, pyDiv, isNumeric,
      numQ, exVal]
    rfl

/-! ### The persistence routine (`Base._save` in `daq/_base.py`)

The routine is modelled as a function of the record and the outcomes of
its environment interactions: the allocation round trip (`dbResult`), the
wall clock (`now`), and the insert round trip (`insertResult`).  Its
observable actions are collected in an event trace; the `Except` error
carries the trace accumulated before the `ValueError` was raised. -/

/-- Wall-clock instant at one-second resolution. -/
structure PyDateTime where
  year : Nat
  month : Nat
  day : Nat
  hour : Nat
  minute : Nat
  second : Nat

/-- Zero-padded fixed-width decimal rendering of one strftime field. -/
def padNat (w n : Nat) : List Char :=
  List.replicate (w - (natDecRepr n).length) '0' ++ natDecRepr n

/-- `datetime.strftime("%Y%m%d%H%M%S")`. -/
def strftimeCompact (t : PyDateTime) : String :=
  String.mk (padNat 4 t.year ++ padNat 2 t.month ++ padNat 2 t.day ++
    padNat 2 t.hour ++ padNat 2 t.minute ++ padNat 2 t.second)

/-- Characters after the last slash: `os.path.basename`. -/
def afterLastSlash (l : List Char) : List Char :=
  l.foldl (fun acc c => if c = '/' then [] else acc ++ [c]) []

/-- Characters before the last dot, when one exists:
`os.path.splitext(...)[0]`. -/
def splitextRoot (l : List Char) : List Char :=
  let rev := l.reverse
  if '.' ∈ rev then ((rev.dropWhile (fun c => c != '.')).drop 1).reverse
  else l

/-- Measurement type derived from the script path, as in `_save`. -/
def scriptMeasurementType (script_path : String) : String :=
  String.mk (splitextRoot (afterLastSlash script_path.data))

/-- `getattr(self, name, None)`. -/
def getattrD (record : Doc) (name : String) : PyVal :=
  match dlookup record name with
  | some v => v
  | Option.none => PyVal.none

/-- Python `v is None` for the values a `getattr` default can produce. -/
def isPyNone : PyVal → Bool
  | PyVal.none => true
  | _ => false

/-- Observable actions of `_save`. -/
inductive Ev where
  | allocCall : Ev
  | warn (msg : String) : Ev
  | info (msg : String) : Ev
  | fileWrite (path : String) : Ev
  | insertCall (document : Doc) : Ev

/-- `Base._save`, over the record and the outcomes of its environment
interactions.  Returns the saved path and the event trace, or the
`ValueError` message with the trace accumulated before the raise.  The
interior of the HDF5 write (the per-field dataset loop, whose per-field
failures are caught and warned) is recorded as a single `fileWrite`
event; no claim depends on the file's contents. -/
def save (record : Doc) (script_path : String) (save_filename : Option String)
    (data_folder : String) (dbResult : Except String String)
    (now : PyDateTime) (utcNow : String)
    (insertResult : Except String String) :
    Except (String × List Ev) (String × List Ev) :=
  let measurement_type := scriptMeasurementType script_path
  let device := getattrD record "device"
  let filter_name := getattrD record "filter"
  let notes := getattrD record "notes"
  if isPyNone device then
    Except.error ("device parameter is required for database logging", [])
  else
    let alloc :=
      match dbResult with
      | Except.ok n => (n, true, ([Ev.allocCall] : List Ev))
      | Except.error _ =>
        (strftimeCompact now, false,
          ([Ev.allocCall,
            Ev.warn "Database unavailable. Using timestamp-based numbering."] :
            List Ev))
    let number := alloc.1
    let db_available := alloc.2.1
    let evs1 := alloc.2.2
    let save_path :=
      match save_filename with
      | Option.none =>
        data_folder ++ "/" ++
          generate_filename number (pyRepr device) measurement_type
      | some f => f
    let evs2 := evs1 ++ [Ev.fileWrite save_path]
    let evs3 :=
      if db_available then
        let document := build_document record utcNow number measurement_type
          save_path device filter_name notes
        match insertResult with
        | Except.ok doc_id =>
          evs2 ++ [Ev.insertCall document,
            Ev.info ("Document inserted to MongoDB with ID: " ++ doc_id)]
        | Except.error _ =>
          evs2 ++ [Ev.insertCall document,
            Ev.warn "Failed to insert to MongoDB. Data file saved locally."]
      else
        evs2 ++ [Ev.info "Database logging skipped (database unavailable)."]
    Except.ok (save_path, evs3)

theorem padNat_length (w n : Nat) (h : (natDecRepr n).length ≤ w) :
    (padNat w n).length = w := by
  simp only [padNat, List.length_append, List.length_replicate]
  omega

theorem padNat_digits (w n : Nat) :
    ∀ c ∈ padNat w n, 48 ≤ c.toNat ∧ c.toNat ≤ 57 := by
  intro c hc
  rcases List.mem_append.mp hc with hc | hc
  · have : c = '0' := List.eq_of_mem_replicate hc
    subst this
    have h48 : ('0' : Char).toNat = 48 := by decide
    omega
  · exact natDecRepr_digits n c hc

/-- The surrogate number for a clock with in-range fields is a 14-digit
string. -/
theorem strftimeCompact_spec (t : PyDateTime)
    (hy : 1000 ≤ t.year ∧ t.year ≤ 9999) (hmo : t.month ≤ 99)
    (hd : t.day ≤ 99) (hh : t.hour ≤ 99) (hmi : t.minute ≤ 99)
    (hs : t.second ≤ 99) :
    (strftimeCompact t).length = 14 ∧
    (∀ c ∈ (strftimeCompact t).data, 48 ≤ c.toNat ∧ c.toNat ≤ 57) := by
  have h4 : (natDecRepr t.year).length ≤ 4 :=
    natDecRepr_length_le 4 (by omega) t.year (by norm_num; omega)
  have h2 : ∀ m : Nat, m ≤ 99 → (natDecRepr m).length ≤ 2 := by
    intro m hm
    exact natDecRepr_length_le 2 (by omega) m (by norm_num; omega)
  constructor
  · show (padNat 4 t.year ++ padNat 2 t.month ++ padNat 2 t.day ++
      padNat 2 t.hour ++ padNat 2 t.minute ++ padNat 2 t.second).length = 14
    simp only [List.length_append]
    rw [padNat_length 4 t.year h4, padNat_length 2 t.month (h2 _ hmo),
      padNat_length 2 t.day (h2 _ hd), padNat_length 2 t.hour (h2 _ hh),
      padNat_length 2 t.minute (h2 _ hmi), padNat_length 2 t.second (h2 _ hs)]
  · intro c hc
    have hc2 : c ∈ padNat 4 t.year ++ padNat 2 t.month ++ padNat 2 t.day ++
        padNat 2 t.hour ++ padNat 2 t.minute ++ padNat 2 t.second := hc
    simp only [List.mem_append] at hc2
    rcases hc2 with ((((hx | hx) | hx) | hx) | hx) | hx <;>
      exact padNat_digits _ _ c hx

theorem isPyNone_false (v : PyVal) (h : v ≠ PyVal.none) :
    isPyNone v = false := by
  cases v <;> first | exact absurd rfl h | rfl

/-- C3: whenever the catalog query fails, `_save` catches the failure,
emits a warning, uses the 14-digit wall-clock surrogate
`YYYYMMDDHHMMSS` as the run number, still writes the container file
under that number, never calls the catalog insert, and returns normally
(no exception escapes). -/
theorem C3_catalog_failure_fallback (record : Doc)
    (script_path data_folder e utcNow : String) (now : PyDateTime)
    (insertResult : Except String String)
    (hdev : getattrD record "device" ≠ PyVal.none)
    (hy : 1000 ≤ now.year ∧ now.year ≤ 9999) (hmo : now.month ≤ 99)
    (hd : now.day ≤ 99) (hh : now.hour ≤ 99) (hmi : now.minute ≤ 99)
    (hs : now.second ≤ 99) :
    ∃ evs : List Ev,
      save record script_path Option.none data_folder (Except.error e) now
          utcNow insertResult =
        Except.ok (data_folder ++ "/" ++
          generate_filename (strftimeCompact now)
            (pyRepr (getattrD record "device"))
            (scriptMeasurementType script_path), evs) ∧
      (∃ msg, Ev.warn msg ∈ evs) ∧
      Ev.fileWrite (data_folder ++ "/" ++
        generate_filename (strftimeCompact now)
          (pyRepr (getattrD record "device"))
          (scriptMeasurementType script_path)) ∈ evs ∧
      (∀ d, Ev.insertCall d ∉ evs) ∧
      (strftimeCompact now).length = 14 ∧
      (∀ c ∈ (strftimeCompact now).data, 48 ≤ c.toNat ∧ c.toNat ≤ 57) := by
  refine ⟨[Ev.allocCall,
    Ev.warn "Database unavailable. Using timestamp-based numbering.",
    Ev.fileWrite (data_folder ++ "/" ++
      generate_filename (strftimeCompact now)
        (pyRepr (getattrD record "device"))
        (scriptMeasurementType script_path)),
    Ev.info "Database logging skipped (database unavailable)."],
    ?_, ?_, ?_, ?_, ?_, ?_⟩
  · simp [save, isPyNone_false _ hdev]
  · exact ⟨"Database unavailable. Using timestamp-based numbering.", by simp⟩
  · simp
  · intro d
    simp
  · exact (strftimeCompact_spec now hy hmo hd hh hmi hs).1
  · exact (strftimeCompact_spec now hy hmo hd hh hmi hs).2

/-- Witness for C3 reproducing the specification's concrete scenario:
the clock 2024-01-15 15:30:45 yields the surrogate "20240115153045". -/
theorem C3_catalog_failure_fallback_witness :
    strftimeCompact ⟨2024, 1, 15, 15, 30, 45⟩ = "20240115153045" ∧
    (∃ evs : List Ev,
      save [("device", PyVal.str "Fridge1")] "/home/u/sweep.py" Option.none
          "data" (Except.error "connection refused")
          ⟨2024, 1, 15, 15, 30, 45⟩ "2024-01-15T15:30:45"
          (Except.ok "id") =
        Except.ok ("data" ++ "/" ++
          generate_filename (strftimeCompact ⟨2024, 1, 15, 15, 30, 45⟩)
            (pyRepr (getattrD [("device", PyVal.str "Fridge1")] "device"))
            (scriptMeasurementType "/home/u/sweep.py"), evs) ∧
      (∃ msg, Ev.warn msg ∈ evs) ∧
      Ev.fileWrite ("data" ++ "/" ++
        generate_filename (strftimeCompact ⟨2024, 1, 15, 15, 30, 45⟩)
          (pyRepr (getattrD [("device", PyVal.str "Fridge1")] "device"))
          (scriptMeasurementType "/home/u/sweep.py")) ∈ evs ∧
      (∀ d, Ev.insertCall d ∉ evs) ∧
      (strftimeCompact ⟨2024, 1, 15, 15, 30, 45⟩).length = 14 ∧
      (∀ c ∈ (strftimeCompact ⟨2024, 1, 15, 15, 30, 45⟩).data,
        48 ≤ c.toNat ∧ c.toNat ≤ 57)) := by
  constructor
  · rfl
  · exact C3_catalog_failure_fallback [("device", PyVal.str "Fridge1")]
      "/home/u/sweep.py" "data" "connection refused" "2024-01-15T15:30:45"
      ⟨2024, 1, 15, 15, 30, 45⟩ (Except.ok "id")
      (by simp [getattrD, dlookup])
      (by norm_num) (by norm_num) (by norm_num) (by norm_num) (by norm_num)
      (by norm_num)

/-- C4: a record without a `device` attribute makes `_save` raise the
fatal `ValueError` before any allocation attempt and before any file
write (the error trace is empty); every record with a device completes
normally whatever the catalog outcomes — the missing-device case is the
only hard failure surfaced to the caller. -/
theorem C4_missing_device_fatal (record : Doc) (script_path : String)
    (save_filename : Option String) (data_folder : String)
    (dbResult : Except String String) (now : PyDateTime) (utcNow : String)
    (insertResult : Except String String) :
    (getattrD record "device" = PyVal.none →
      save record script_path save_filename data_folder dbResult now utcNow
          insertResult =
        Except.error ("device parameter is required for database logging",
          [])) ∧
    (getattrD record "device" ≠ PyVal.none →
      ∃ pr, save record script_path save_filename data_folder dbResult now
        utcNow insertResult = Except.ok pr) := by
  constructor
  · intro h
    simp [save, h, isPyNone]
  · intro h
    simp only [save, isPyNone_false _ h]
    exact ⟨_, rfl⟩

/-- Witness for C4: the empty record (no `device`) fails fatally with an
empty trace; a record with a device succeeds. -/
theorem C4_missing_device_fatal_witness :
    save [] "/home/u/sweep.py" Option.none "data" (Except.ok "00000001")
        ⟨2024, 1, 15, 15, 30, 45⟩ "2024-01-15T15:30:45" (Except.ok "id") =
      Except.error ("device parameter is required for database logging",
        []) ∧
    (∃ pr, save [("device", PyVal.str "Fridge1")] "/home/u/sweep.py"
        Option.none "data" (Except.ok "00000001")
        ⟨2024, 1, 15, 15, 30, 45⟩ "2024-01-15T15:30:45" (Except.ok "id") =
      Except.ok pr) := by
  constructor
  · exact (C4_missing_device_fatal [] "/home/u/sweep.py" Option.none "data"
      (Except.ok "00000001") ⟨2024, 1, 15, 15, 30, 45⟩
      "2024-01-15T15:30:45" (Except.ok "id")).1 rfl
  · exact (C4_missing_device_fatal [("device", PyVal.str "Fridge1")]
      "/home/u/sweep.py" Option.none "data" (Except.ok "00000001")
      ⟨2024, 1, 15, 15, 30, 45⟩ "2024-01-15T15:30:45"
      (Except.ok "id")).2 (by simp [getattrD, dlookup])

/-! ### The Query Engine: `select_runs` (`daq/db/database.py`) -/

/-- One MongoDB filter condition as built by `select_runs`. -/
inductive Cond where
  | eq (v : PyVal) : Cond
  | regexI (pat : String) : Cond
  | timeRange (lo hi : Option String) : Cond

/-- The `add_string_filter` helper of `select_runs`. -/
def addStringFilter (string_match : String) (field : String)
    (value : Option String) (query : List (String × Cond)) :
    List (String × Cond) :=
  match value with
  | Option.none => query
  | some v =>
    if string_match = "regex" then dictSet query field (Cond.regexI v)
    else dictSet query field (Cond.eq (PyVal.str v))

/-- ISO-8601 normalization applied to time bounds: a trailing `Z`
becomes an explicit `+00:00` offset (the further
`fromisoformat`/`isoformat` round trip of well-formed instants is the
identity and is not modelled beyond this). -/
def normalizeIso (s : String) : String :=
  String.mk (s.data.foldr
    (fun c acc =>
      if c = 'Z' then '+' :: '0' :: '0' :: ':' :: '0' :: '0' :: acc
      else c :: acc)
    [])

/-- The MongoDB query dictionary built by `select_runs` from its
filters. -/
def select_runs_query (device filter_name notes measurement_type :
    Option String) (start_time end_time : Option String)
    (string_match : String) (kwargs : List (String × PyVal)) :
    List (String × Cond) :=
  let q0 : List (String × Cond) := []
  let q1 := addStringFilter string_match "device" device q0
  let q2 := addStringFilter string_match "filter" filter_name q1
  let q3 := addStringFilter string_match "notes" notes q2
  let q4 := addStringFilter string_match "type" measurement_type q3
  let q5 :=
    if start_time.isSome || end_time.isSome then
      dictSet q4 "utc_time"
        (Cond.timeRange (start_time.map normalizeIso)
          (end_time.map normalizeIso))
    else q4
  kwargs.foldl
    (fun q p =>
      match p.2 with
      | PyVal.none => q
      | PyVal.str s => addStringFilter string_match p.1 (some s) q
      | v => dictSet q p.1 (Cond.eq v))
    q5

theorem addStringFilter_lookup_self (m f v : String)
    (q : List (String × Cond)) :
    dlookup (addStringFilter m f (some v) q) f =
      some (if m = "regex" then Cond.regexI v else Cond.eq (PyVal.str v)) := by
  by_cases hm : m = "regex"
  · simp only [addStringFilter, if_pos hm]
    exact dlookup_dictSet_self q f _
  · simp only [addStringFilter, if_neg hm]
    exact dlookup_dictSet_self q f _

theorem addStringFilter_lookup_ne (m f : String) (value : Option String)
    (k : String) (hk : f ≠ k) (q : List (String × Cond)) :
    dlookup (addStringFilter m f value q) k = dlookup q k := by
  cases value with
  | none => rfl
  | some v =>
    by_cases hm : m = "regex"
    · simp only [addStringFilter, if_pos hm]
      exact dlookup_dictSet_ne q f k _ hk
    · simp only [addStringFilter, if_neg hm]
      exact dlookup_dictSet_ne q f k _ hk

/-- One step of the kwargs loop of `select_runs`. -/
def kwargStep (string_match : String) (q : List (String × Cond))
    (p : String × PyVal) : List (String × Cond) :=
  match p.2 with
  | PyVal.none => q
  | PyVal.str s => addStringFilter string_match p.1 (some s) q
  | v => dictSet q p.1 (Cond.eq v)

theorem select_runs_query_eq_fold (device filter_name notes
    measurement_type start_time end_time : Option String)
    (string_match : String) (kwargs : List (String × PyVal)) :
    select_runs_query device filter_name notes measurement_type start_time
        end_time string_match kwargs =
      kwargs.foldl (kwargStep string_match)
        (select_runs_query device filter_name notes measurement_type
          start_time end_time string_match []) := by
  rfl

theorem kwargStep_lookup_ne (m : String) (q : List (String × Cond))
    (p : String × PyVal) (k : String) (hk : p.1 ≠ k) :
    dlookup (kwargStep m q p) k = dlookup q k := by
  match p with
  | (key, v) =>
    cases v with
    | none => rfl
    | str s => exact addStringFilter_lookup_ne m key (some s) k hk q
    | bool b => exact dlookup_dictSet_ne q key k _ hk
    | int i => exact dlookup_dictSet_ne q key k _ hk
    | float x => exact dlookup_dictSet_ne q key k _ hk
    | pylist l => exact dlookup_dictSet_ne q key k _ hk
    | dict l => exact dlookup_dictSet_ne q key k _ hk
    | npArray l => exact dlookup_dictSet_ne q key k _ hk
    | npInt i => exact dlookup_dictSet_ne q key k _ hk
    | npFloat x => exact dlookup_dictSet_ne q key k _ hk
    | obj s => exact dlookup_dictSet_ne q key k _ hk

theorem kwargs_fold_lookup_ne (m : String) :
    ∀ (kwargs : List (String × PyVal)) (q : List (String × Cond))
      (k : String), (∀ p ∈ kwargs, p.1 ≠ k) →
      dlookup (kwargs.foldl (kwargStep m) q) k = dlookup q k := by
  intro kwargs
  induction kwargs with
  | nil => intro q k _; rfl
  | cons p rest ih =>
    intro q k hk
    simp only [List.foldl_cons]
    rw [ih _ k (fun x hx => hk x (List.mem_cons_of_mem _ hx))]
    exact kwargStep_lookup_ne m q p k (hk p (List.mem_cons_self _ _))

/-- Value of the final query on a kwargs key, for kwargs with distinct
keys. -/
theorem kwargs_fold_lookup_mem (m : String) :
    ∀ (kwargs : List (String × PyVal)) (q : List (String × Cond))
      (k : String) (v : PyVal), (k, v) ∈ kwargs →
      (kwargs.map Prod.fst).Nodup →
      dlookup (kwargs.foldl (kwargStep m) q) k =
        (match v with
          | PyVal.none => dlookup q k
          | PyVal.str s =>
            some (if m = "regex" then Cond.regexI s
              else Cond.eq (PyVal.str s))
          | w => some (Cond.eq w)) := by
  intro kwargs
  induction kwargs with
  | nil => intro q k v hv; simp at hv
  | cons p rest ih =>
    intro q k v hv hnd
    have hnd2 : (rest.map Prod.fst).Nodup := by
      simpa using List.Nodup.of_cons hnd
    rcases List.mem_cons.mp hv with rfl | hv2
    · have hknotin : ∀ x ∈ rest, x.1 ≠ k := by
        intro x hx he
        simp only [List.map_cons, List.nodup_cons] at hnd
        exact hnd.1 (he ▸ List.mem_map_of_mem Prod.fst hx)
      simp only [List.foldl_cons]
      rw [kwargs_fold_lookup_ne m rest _ k hknotin]
      cases v with
      | none => rfl
      | str s => exact addStringFilter_lookup_self m k s q
      | bool b => exact dlookup_dictSet_self q k _
      | int i => exact dlookup_dictSet_self q k _
      | float x => exact dlookup_dictSet_self q k _
      | pylist l => exact dlookup_dictSet_self q k _
      | dict l => exact dlookup_dictSet_self q k _
      | npArray l => exact dlookup_dictSet_self q k _
      | npInt i => exact dlookup_dictSet_self q k _
      | npFloat x => exact dlookup_dictSet_self q k _
      | obj s => exact dlookup_dictSet_self q k _
    · have hpk : p.1 ≠ k := by
        intro he
        have : k ∈ rest.map Prod.fst := by
          exact List.mem_map_of_mem Prod.fst hv2
        simp only [List.map_cons, List.nodup_cons] at hnd
        rw [he] at hnd
        exact hnd.1 this
      simp only [List.foldl_cons]
      rw [ih (kwargStep m q p) k v hv2 hnd2]
      cases v with
      | none => exact kwargStep_lookup_ne m q p k hpk
      | str s => rfl
      | bool b => rfl
      | int i => rfl
      | float x => rfl
      | pylist l => rfl
      | dict l => rfl
      | npArray l => rfl
      | npInt i => rfl
      | npFloat x => rfl
      | obj s => rfl

/-- C8: every supplied string filter (the named fields `device`,
`filter`, `notes`, `type`, and any extra string-valued keyword filter) is
an exact-equality condition unless the explicit pattern mode
(`string_match = "regex"`) is selected, which switches every string
filter simultaneously to a case-insensitive regular-expression
condition; non-string extra filters are equality conditions in either
mode. -/
theorem C8_filter_semantics (device filter_name notes measurement_type
    start_time end_time : Option String) (string_match : String)
    (kwargs : List (String × PyVal))
    (hnd : (kwargs.map Prod.fst).Nodup)
    (hdisj : ∀ p ∈ kwargs, p.1 ≠ "device" ∧ p.1 ≠ "filter" ∧
      p.1 ≠ "notes" ∧ p.1 ≠ "type" ∧ p.1 ≠ "utc_time") :
    (∀ v, device = some v →
      dlookup (select_runs_query device filter_name notes measurement_type
          start_time end_time string_match kwargs) "device" =
        some (if string_match = "regex" then Cond.regexI v
          else Cond.eq (PyVal.str v))) ∧
    (∀ v, filter_name = some v →
      dlookup (select_runs_query device filter_name notes measurement_type
          start_time end_time string_match kwargs) "filter" =
        some (if string_match = "regex" then Cond.regexI v
          else Cond.eq (PyVal.str v))) ∧
    (∀ v, notes = some v →
      dlookup (select_runs_query device filter_name notes measurement_type
          start_time end_time string_match kwargs) "notes" =
        some (if string_match = "regex" then Cond.regexI v
          else Cond.eq (PyVal.str v))) ∧
    (∀ v, measurement_type = some v →
      dlookup (select_runs_query device filter_name notes measurement_type
          start_time end_time string_match kwargs) "type" =
        some (if string_match = "regex" then Cond.regexI v
          else Cond.eq (PyVal.str v))) ∧
    (∀ k s, (k, PyVal.str s) ∈ kwargs →
      dlookup (select_runs_query device filter_name notes measurement_type
          start_time end_time string_match kwargs) k =
        some (if string_match = "regex" then Cond.regexI s
          else Cond.eq (PyVal.str s))) ∧
    (∀ k v, (k, v) ∈ kwargs → v ≠ PyVal.none → (∀ s, v ≠ PyVal.str s) →
      dlookup (select_runs_query device filter_name notes measurement_type
          start_time end_time string_match kwargs) k =
        some (Cond.eq v)) := by
  refine ⟨?_, ?_, ?_, ?_, ?_, ?_⟩
  · intro v hv
    subst hv
    rw [select_runs_query_eq_fold,
      kwargs_fold_lookup_ne string_match kwargs _ "device"
        (fun p hp => (hdisj p hp).1)]
    simp only [select_runs_query, List.foldl_nil]
    by_cases ht : (start_time.isSome || end_time.isSome) = true
    · rw [if_pos ht, dlookup_dictSet_ne _ "utc_time" "device" _ (by decide),
        addStringFilter_lookup_ne _ "type" _ "device" (by decide),
        addStringFilter_lookup_ne _ "notes" _ "device" (by decide),
        addStringFilter_lookup_ne _ "filter" _ "device" (by decide)]
      exact addStringFilter_lookup_self string_match "device" v []
    · rw [if_neg ht,
        addStringFilter_lookup_ne _ "type" _ "device" (by decide),
        addStringFilter_lookup_ne _ "notes" _ "device" (by decide),
        addStringFilter_lookup_ne _ "filter" _ "device" (by decide)]
      exact addStringFilter_lookup_self string_match "device" v []
  · intro v hv
    subst hv
    rw [select_runs_query_eq_fold,
      kwargs_fold_lookup_ne string_match kwargs _ "filter"
        (fun p hp => (hdisj p hp).2.1)]
    simp only [select_runs_query, List.foldl_nil]
    by_cases ht : (start_time.isSome || end_time.isSome) = true
    · rw [if_pos ht, dlookup_dictSet_ne _ "utc_time" "filter" _ (by decide),
        addStringFilter_lookup_ne _ "type" _ "filter" (by decide),
        addStringFilter_lookup_ne _ "notes" _ "filter" (by decide)]
      exact addStringFilter_lookup_self string_match "filter" v _
    · rw [if_neg ht,
        addStringFilter_lookup_ne _ "type" _ "filter" (by decide),
        addStringFilter_lookup_ne _ "notes" _ "filter" (by decide)]
      exact addStringFilter_lookup_self string_match "filter" v _
  · intro v hv
    subst hv
    rw [select_runs_query_eq_fold,
      kwargs_fold_lookup_ne string_match kwargs _ "notes"
        (fun p hp => (hdisj p hp).2.2.1)]
    simp only [select_runs_query, List.foldl_nil]
    by_cases ht : (start_time.isSome || end_time.isSome) = true
    · rw [if_pos ht, dlookup_dictSet_ne _ "utc_time" "notes" _ (by decide),
        addStringFilter_lookup_ne _ "type" _ "notes" (by decide)]
      exact addStringFilter_lookup_self string_match "notes" v _
    · rw [if_neg ht,
        addStringFilter_lookup_ne _ "type" _ "notes" (by decide)]
      exact addStringFilter_lookup_self string_match "notes" v _
  · intro v hv
    subst hv
    rw [select_runs_query_eq_fold,
      kwargs_fold_lookup_ne string_match kwargs _ "type"
        (fun p hp => (hdisj p hp).2.2.2.1)]
    simp only [select_runs_query, List.foldl_nil]
    by_cases ht : (start_time.isSome || end_time.isSome) = true
    · rw [if_pos ht, dlookup_dictSet_ne _ "utc_time" "type" _ (by decide)]
      exact addStringFilter_lookup_self string_match "type" v _
    · rw [if_neg ht]
      exact addStringFilter_lookup_self string_match "type" v _
  · intro k s hks
    rw [select_runs_query_eq_fold,
      kwargs_fold_lookup_mem string_match kwargs _ k (PyVal.str s) hks hnd]
  · intro k v hkv hvn hvs
    rw [select_runs_query_eq_fold,
      kwargs_fold_lookup_mem string_match kwargs _ k v hkv hnd]
    cases v with
    | none => exact absurd rfl hvn
    | str s => exact absurd rfl (hvs s)
    | bool b => rfl
    | int i => rfl
    | float x => rfl
    | pylist l => rfl
    | dict l => rfl
    | npArray l => rfl
    | npInt i => rfl
    | npFloat x => rfl
    | obj s => rfl

/-- Witness for C8 at a concrete query: `device="Fridge1"`,
`measurement_type="sweep"`, extras `output_port=1` (non-string) and
`label="x"` (string), in both match modes. -/
theorem C8_filter_semantics_witness :
    dlookup (select_runs_query (some "Fridge1") Option.none Option.none
        (some "sweep") Option.none Option.none "exact"
        [("output_port", PyVal.int 1), ("label", PyVal.str "x")])
      "device" = some (Cond.eq (PyVal.str "Fridge1")) ∧
    dlookup (select_runs_query (some "Fridge1") Option.none Option.none
        (some "sweep") Option.none Option.none "regex"
        [("output_port", PyVal.int 1), ("label", PyVal.str "x")])
      "device" = some (Cond.regexI "Fridge1") ∧
    dlookup (select_runs_query (some "Fridge1") Option.none Option.none
        (some "sweep") Option.none Option.none "regex"
        [("output_port", PyVal.int 1), ("label", PyVal.str "x")])
      "label" = some (Cond.regexI "x") ∧
    dlookup (select_runs_query (some "Fridge1") Option.none Option.none
        (some "sweep") Option.none Option.none "regex"
        [("output_port", PyVal.int 1), ("label", PyVal.str "x")])
      "output_port" = some (Cond.eq (PyVal.int 1)) := by
  have hnd : ((([("output_port", PyVal.int 1), ("label", PyVal.str "x")] :
      List (String × PyVal)).map Prod.fst)).Nodup := by
    simp
  have hdisj : ∀ p ∈ ([("output_port", PyVal.int 1),
      ("label", PyVal.str "x")] : List (String × PyVal)),
      p.1 ≠ "device" ∧ p.1 ≠ "filter" ∧ p.1 ≠ "notes" ∧ p.1 ≠ "type" ∧
      p.1 ≠ "utc_time" := by
    intro p hp
    rcases List.mem_cons.mp hp with rfl | hp2
    · exact ⟨by decide, by decide, by decide, by decide, by decide⟩
    · rcases List.mem_cons.mp hp2 with rfl | hp3
      · exact ⟨by decide, by decide, by decide, by decide, by decide⟩
      · simp at hp3
  have hex := C8_filter_semantics (some "Fridge1") Option.none Option.none
    (some "sweep") Option.none Option.none "exact"
    [("output_port", PyVal.int 1), ("label", PyVal.str "x")] hnd hdisj
  have hre := C8_filter_semantics (some "Fridge1") Option.none Option.none
    (some "sweep") Option.none Option.none "regex"
    [("output_port", PyVal.int 1), ("label", PyVal.str "x")] hnd hdisj
  refine ⟨?_, ?_, ?_, ?_⟩
  · have h := hex.1 "Fridge1" rfl
    rw [h, if_neg (by decide)]
  · have h := hre.1 "Fridge1" rfl
    rw [h, if_pos (by decide)]
  · have h := hre.2.2.2.2.1 "label" "x" (by simp)
    rw [h, if_pos (by decide)]
  · exact hre.2.2.2.2.2 "output_port" (PyVal.int 1) (by simp)
      (by intro h; cases h) (by intro s h; cases h)

/-! ### The Query Engine: `list_devices` (`daq/db/database.py`)

The aggregation pipeline is modelled stage by stage: `$match` keeps the
documents whose `device` exists and is not null, `$group` tallies one
row per distinct device value, `$sort` orders rows by count descending
(ties in an unspecified order, determinized here by insertion sort), and
`$project` shapes each row as a (device, count) pair. -/

/-- `$match` + key extraction: the `device` values of the documents whose
`device` field exists and is not null, in catalog order. -/
def matchedDevices (catalog : List Doc) : List PyVal :=
  catalog.filterMap (fun d =>
    match dlookup d "device" with
    | some v => if isPyNone v then Option.none else some v
    | Option.none => Option.none)

/-- Bump a row's count when its key equals the grouped value. -/
def incEntry (v : PyVal) (p : PyVal × Nat) : PyVal × Nat :=
  if pyBeq p.1 v then (p.1, p.2 + 1) else p

/-- One `$group` accumulation step: bump the row of an already seen
device value, or open a new row with count 1. -/
def tallyStep (acc : List (PyVal × Nat)) (v : PyVal) : List (PyVal × Nat) :=
  if acc.any (fun p => pyBeq p.1 v) then acc.map (incEntry v)
  else acc ++ [(v, 1)]

/-- `$group {_id: "$device", count: {$sum: 1}}`. -/
def tally (l : List PyVal) : List (PyVal × Nat) := l.foldl tallyStep []

/-- `list_devices`: match, group, sort by count descending. -/
def list_devices (catalog : List Doc) : List (PyVal × Nat) :=
  List.insertionSort (fun a b => b.2 ≤ a.2) (tally (matchedDevices catalog))

/-- Occurrences of the device string `s` in a value list. -/
def countStr (l : List PyVal) (s : String) : Nat :=
  l.countP (fun w => pyBeq w (PyVal.str s))

/-- Number of catalog documents whose `device` equals the string `s`. -/
def deviceCount (catalog : List Doc) (s : String) : Nat :=
  catalog.countP (fun d =>
    match dlookup d "device" with
    | some w => pyBeq w (PyVal.str s)
    | Option.none => false)

/-- Count carried by the first row for device `s`, if any. -/
def rowCount (rows : List (PyVal × Nat)) (s : String) : Option Nat :=
  match rows with
  | [] => Option.none
  | (k, n) :: rest =>
    if pyBeq k (PyVal.str s) then some n else rowCount rest s

theorem pyBeq_str_str (a b : String) :
    pyBeq (PyVal.str a) (PyVal.str b) = (a == b) := rfl

theorem pyBeq_str_shape (k : PyVal) (t : String)
    (h : pyBeq k (PyVal.str t) = true) : k = PyVal.str t := by
  cases k with
  | str u =>
    rw [pyBeq_str_str, beq_iff_eq] at h
    rw [h]
  | none => exact absurd h (by simp [pyBeq])
  | bool b => exact absurd h (by simp [pyBeq])
  | int i => exact absurd h (by simp [pyBeq])
  | float q => exact absurd h (by simp [pyBeq])
  | pylist l => exact absurd h (by simp [pyBeq])
  | dict l => exact absurd h (by simp [pyBeq])
  | npArray l => exact absurd h (by simp [pyBeq])
  | npInt i => exact absurd h (by simp [pyBeq])
  | npFloat q => exact absurd h (by simp [pyBeq])
  | obj s => exact absurd h (by simp [pyBeq])

theorem pyBeq_str_right_eq (k : PyVal) (t s : String)
    (ht : pyBeq k (PyVal.str t) = true) (hs : pyBeq k (PyVal.str s) = true) :
    s = t := by
  have h1 := pyBeq_str_shape k t ht
  have h2 := pyBeq_str_shape k s hs
  rw [h1] at h2
  exact (PyVal.str.inj h2.symm)

theorem incEntry_pos (v k : PyVal) (n : Nat) (h : pyBeq k v = true) :
    incEntry v (k, n) = (k, n + 1) := by
  simp [incEntry, h]

theorem incEntry_neg (v k : PyVal) (n : Nat) (h : ¬ pyBeq k v = true) :
    incEntry v (k, n) = (k, n) := by
  simp [incEntry, h]

theorem rowCount_append (a b : List (PyVal × Nat)) (s : String) :
    rowCount (a ++ b) s =
      (match rowCount a s with
        | some n => some n
        | Option.none => rowCount b s) := by
  induction a with
  | nil => rfl
  | cons p rest ih =>
    match p with
    | (k, n) =>
      by_cases hk : pyBeq k (PyVal.str s) = true
      · simp only [List.cons_append, rowCount, if_pos hk]
      · simp only [List.cons_append, rowCount, if_neg hk]
        exact ih

theorem rowCount_map_inc (t s : String) :
    ∀ rows : List (PyVal × Nat),
      rowCount (rows.map (incEntry (PyVal.str t))) s =
      (if s = t then
        (match rowCount rows s with
          | some n => some (n + 1)
          | Option.none => Option.none)
      else rowCount rows s) := by
  intro rows
  induction rows with
  | nil => by_cases h : s = t <;> simp [rowCount, h]
  | cons p rest ih =>
    match p with
    | (k, n) =>
      by_cases hkt : pyBeq k (PyVal.str t) = true
      · by_cases hks : pyBeq k (PyVal.str s) = true
        · have hst : s = t := pyBeq_str_right_eq k t s hkt hks
          subst hst
          rw [List.map_cons, incEntry_pos _ _ _ hkt]
          simp [rowCount, hks]
        · have hst : ¬ s = t := by
            intro he
            subst he
            exact hks hkt
          rw [List.map_cons, incEntry_pos _ _ _ hkt]
          simp only [rowCount, if_neg hks, if_neg hst]
          rw [ih, if_neg hst]
      · by_cases hks : pyBeq k (PyVal.str s) = true
        · have hst : ¬ s = t := by
            intro he
            subst he
            exact hkt hks
          rw [List.map_cons, incEntry_neg _ _ _ hkt]
          simp only [rowCount, if_pos hks, if_neg hst]
        · rw [List.map_cons, incEntry_neg _ _ _ hkt]
          simp only [rowCount, if_neg hks]
          exact ih

theorem rowCount_of_any_false (t : String) :
    ∀ rows : List (PyVal × Nat),
      rows.any (fun p => pyBeq p.1 (PyVal.str t)) = false →
      rowCount rows t = Option.none := by
  intro rows
  induction rows with
  | nil => intro _; rfl
  | cons p rest ih =>
    intro h
    obtain ⟨k, n⟩ := p
    simp only [List.any_cons, Bool.or_eq_false_iff] at h
    simp only [rowCount]
    rw [if_neg (by rw [h.1]; simp)]
    exact ih h.2

theorem rowCount_of_any_true (t : String) :
    ∀ rows : List (PyVal × Nat),
      rows.any (fun p => pyBeq p.1 (PyVal.str t)) = true →
      ∃ n, rowCount rows t = some n := by
  intro rows
  induction rows with
  | nil => intro h; simp at h
  | cons p rest ih =>
    intro h
    obtain ⟨k, n⟩ := p
    by_cases hk : pyBeq k (PyVal.str t) = true
    · exact ⟨n, by simp only [rowCount, if_pos hk]⟩
    · simp only [List.any_cons] at h
      have h2 : rest.any (fun p => pyBeq p.1 (PyVal.str t)) = true := by
        rcases Bool.or_eq_true_iff.mp h with h1 | h1
        · exact absurd h1 hk
        · exact h1
      obtain ⟨m, hm⟩ := ih h2
      exact ⟨m, by simp only [rowCount, if_neg hk]; exact hm⟩

/-- Effect of one `$group` step on the row of device `s`. -/
theorem rowCount_tallyStep (acc : List (PyVal × Nat)) (t s : String) :
    rowCount (tallyStep acc (PyVal.str t)) s =
      (if s = t then
        (match rowCount acc t with
          | some n => some (n + 1)
          | Option.none => some 1)
      else rowCount acc s) := by
  by_cases ha : acc.any (fun p => pyBeq p.1 (PyVal.str t)) = true
  · simp only [tallyStep, if_pos ha]
    rw [rowCount_map_inc t s acc]
    obtain ⟨n, hn⟩ := rowCount_of_any_true t acc ha
    by_cases hst : s = t
    · subst hst
      rw [hn]
    · simp [hst]
  · simp only [tallyStep, if_neg ha]
    rw [rowCount_append]
    have hnone := rowCount_of_any_false t acc (by simpa using ha)
    by_cases hst : s = t
    · subst hst
      rw [hnone]
      simp [rowCount, pyBeq_str_str]
    · rw [if_neg hst]
      cases hc : rowCount acc s with
      | some n => rfl
      | none =>
        simp only [rowCount]
        rw [if_neg (by
          simp only [pyBeq_str_str, beq_iff_eq]
          intro he
          exact hst he.symm)]

/-- Keys of all rows are string values. -/
def StringKeys (rows : List (PyVal × Nat)) : Prop :=
  ∀ p ∈ rows, ∃ s : String, p.1 = PyVal.str s

/-- Row count after grouping a list of string device values: the number
of occurrences, or no row when there are none. -/
theorem rowCount_tally_fold :
    ∀ (l : List PyVal) (acc : List (PyVal × Nat)) (s : String),
      (∀ w ∈ l, ∃ u : String, w = PyVal.str u) →
      rowCount (l.foldl tallyStep acc) s =
        (match rowCount acc s with
          | some n => some (n + countStr l s)
          | Option.none =>
            if countStr l s = 0 then Option.none else some (countStr l s)) := by
  intro l
  induction l with
  | nil =>
    intro acc s _
    cases h : rowCount acc s with
    | none => simp [countStr, h]
    | some n => simp [countStr, h]
  | cons w rest ih =>
    intro acc s hl
    obtain ⟨t, rfl⟩ := hl w (List.mem_cons_self _ _)
    have hrest : ∀ x ∈ rest, ∃ u : String, x = PyVal.str u :=
      fun x hx => hl x (List.mem_cons_of_mem _ hx)
    simp only [List.foldl_cons]
    rw [ih (tallyStep acc (PyVal.str t)) s hrest]
    rw [rowCount_tallyStep acc t s]
    by_cases hst : s = t
    · subst hst
      have hcnt : countStr (PyVal.str s :: rest) s = countStr rest s + 1 := by
        simp [countStr, List.countP_cons, pyBeq_str_str]
      rw [hcnt, if_pos rfl]
      cases hc : rowCount acc s with
      | some n =>
        dsimp only
        simp only [Option.some.injEq]
        omega
      | none =>
        dsimp only
        rw [if_neg (by omega)]
        simp only [Option.some.injEq]
        omega
    · have hcnt : countStr (PyVal.str t :: rest) s = countStr rest s := by
        simp only [countStr, List.countP_cons, pyBeq_str_str, beq_iff_eq]
        rw [if_neg (by intro hh; exact hst hh.symm)]
        omega
      rw [hcnt, if_neg hst]

theorem isPyNone_true (v : PyVal) (h : isPyNone v = true) : v = PyVal.none := by
  cases v <;> first | rfl | exact absurd h (by simp [isPyNone])

theorem tallyStep_keys (acc : List (PyVal × Nat)) (v : PyVal)
    (hs : StringKeys acc) (hv : ∃ u : String, v = PyVal.str u)
    (hnd : (acc.map Prod.fst).Nodup) :
    StringKeys (tallyStep acc v) ∧
      ((tallyStep acc v).map Prod.fst).Nodup := by
  by_cases ha : acc.any (fun p => pyBeq p.1 v) = true
  · simp only [tallyStep, if_pos ha]
    have hkeys : (acc.map (incEntry v)).map Prod.fst = acc.map Prod.fst := by
      rw [List.map_map]
      apply List.map_congr_left
      intro p _
      simp only [Function.comp_apply, incEntry]
      by_cases h : pyBeq p.1 v = true
      · rw [if_pos h]
      · rw [if_neg h]
    constructor
    · intro p hp
      rcases List.mem_map.mp hp with ⟨q, hq, rfl⟩
      obtain ⟨u, hu⟩ := hs q hq
      simp only [incEntry]
      by_cases h : pyBeq q.1 v = true
      · rw [if_pos h]
        exact ⟨u, hu⟩
      · rw [if_neg h]
        exact ⟨u, hu⟩
    · rw [hkeys]
      exact hnd
  · simp only [tallyStep, if_neg ha]
    obtain ⟨u, rfl⟩ := hv
    constructor
    · intro p hp
      rcases List.mem_append.mp hp with hp | hp
      · exact hs p hp
      · have hpv : p = (PyVal.str u, 1) := by simpa using hp
        rw [hpv]
        exact ⟨u, rfl⟩
    · rw [List.map_append]
      refine List.Nodup.append hnd (by simp) ?_
      intro a ha2 hb
      have hav : a = PyVal.str u := by simpa using hb
      subst hav
      rcases List.mem_map.mp ha2 with ⟨q, hq, hqa⟩
      have : pyBeq q.1 (PyVal.str u) = true := by
        rw [hqa, pyBeq_str_str]
        simp
      have hcontra : acc.any (fun p => pyBeq p.1 (PyVal.str u)) = true :=
        List.any_eq_true.mpr ⟨q, hq, this⟩
      exact ha hcontra

theorem tally_fold_keys :
    ∀ (l : List PyVal) (acc : List (PyVal × Nat)),
      (∀ w ∈ l, ∃ u : String, w = PyVal.str u) →
      StringKeys acc → (acc.map Prod.fst).Nodup →
      StringKeys (l.foldl tallyStep acc) ∧
        ((l.foldl tallyStep acc).map Prod.fst).Nodup := by
  intro l
  induction l with
  | nil => intro acc _ hs hnd; exact ⟨hs, hnd⟩
  | cons w rest ih =>
    intro acc hl hs hnd
    have hw := hl w (List.mem_cons_self _ _)
    have hstep := tallyStep_keys acc w hs hw hnd
    simp only [List.foldl_cons]
    exact ih (tallyStep acc w)
      (fun x hx => hl x (List.mem_cons_of_mem _ hx)) hstep.1 hstep.2

/-- For rows with distinct string keys, membership agrees with the row
count. -/
theorem rowCount_mem_iff :
    ∀ rows : List (PyVal × Nat), StringKeys rows →
      (rows.map Prod.fst).Nodup → ∀ (s : String) (n : Nat),
      ((PyVal.str s, n) ∈ rows ↔ rowCount rows s = some n) := by
  intro rows
  induction rows with
  | nil =>
    intro _ _ s n
    simp [rowCount]
  | cons p rest ih =>
    intro hs hnd s n
    obtain ⟨k, m⟩ := p
    obtain ⟨u, hu⟩ := hs (k, m) (List.mem_cons_self _ _)
    simp only at hu
    subst hu
    have hsrest : StringKeys rest :=
      fun q hq => hs q (List.mem_cons_of_mem _ hq)
    have hndrest : (rest.map Prod.fst).Nodup := by
      simpa using List.Nodup.of_cons hnd
    have hhead : PyVal.str u ∉ rest.map Prod.fst := by
      simp only [List.map_cons, List.nodup_cons] at hnd
      exact hnd.1
    by_cases hus : u = s
    · subst hus
      simp only [rowCount]
      rw [if_pos (by rw [pyBeq_str_str]; simp)]
      constructor
      · intro hmem
        rcases List.mem_cons.mp hmem with he | hmem2
        · have : n = m := by
            have := congrArg Prod.snd he
            simpa using this
          rw [this]
        · exact absurd (List.mem_map_of_mem Prod.fst hmem2) (by simpa using hhead)
      · intro hsome
        have : m = n := Option.some.inj hsome
        rw [← this]
        exact List.mem_cons_self _ _
    · simp only [rowCount]
      rw [if_neg (by
        rw [pyBeq_str_str, beq_iff_eq]
        intro he
        exact hus he)]
      constructor
      · intro hmem
        rcases List.mem_cons.mp hmem with he | hmem2
        · have := congrArg Prod.fst he
          simp only at this
          exact absurd (PyVal.str.inj this) (fun hh => hus hh.symm)
        · exact (ih hsrest hndrest s n).mp hmem2
      · intro hsome
        exact List.mem_cons_of_mem _ ((ih hsrest hndrest s n).mpr hsome)

/-- The row count only depends on the rows up to permutation, when keys
are distinct strings. -/
theorem rowCount_congr_perm (rows rows2 : List (PyVal × Nat))
    (hp : rows.Perm rows2) (hs : StringKeys rows)
    (hnd : (rows.map Prod.fst).Nodup) (s : String) :
    rowCount rows2 s = rowCount rows s := by
  have hs2 : StringKeys rows2 := fun p hp2 => hs p (hp.symm.subset hp2)
  have hnd2 : (rows2.map Prod.fst).Nodup :=
    ((hp.map Prod.fst).nodup_iff).mp hnd
  cases h : rowCount rows s with
  | some n =>
    have hmem : (PyVal.str s, n) ∈ rows := (rowCount_mem_iff rows hs hnd s n).mpr h
    exact (rowCount_mem_iff rows2 hs2 hnd2 s n).mp (hp.subset hmem)
  | none =>
    cases h2 : rowCount rows2 s with
    | none => rfl
    | some n =>
      have hmem2 := (rowCount_mem_iff rows2 hs2 hnd2 s n).mpr h2
      have hmem := hp.symm.subset hmem2
      have heq := (rowCount_mem_iff rows hs hnd s n).mp hmem
      rw [heq] at h
      exact absurd h (by simp)

theorem countStr_matchedDevices (catalog : List Doc) (s : String) :
    countStr (matchedDevices catalog) s = deviceCount catalog s := by
  induction catalog with
  | nil => rfl
  | cons d rest ih =>
    have hdc : deviceCount (d :: rest) s = deviceCount rest s +
        (match dlookup d "device" with
          | some w => if pyBeq w (PyVal.str s) then 1 else 0
          | Option.none => 0) := by
      simp only [deviceCount, List.countP_cons]
      cases dlookup d "device" with
      | none => simp
      | some w =>
        by_cases h : pyBeq w (PyVal.str s) = true
        · simp [h]
        · simp [h]
    cases hdv : dlookup d "device" with
    | none =>
      have hm : matchedDevices (d :: rest) = matchedDevices rest := by
        simp only [matchedDevices, List.filterMap_cons, hdv]
      rw [hm, ih, hdc, hdv]
      simp
    | some v =>
      by_cases hn : isPyNone v = true
      · have hv0 := isPyNone_true v hn
        subst hv0
        have hm : matchedDevices (d :: rest) = matchedDevices rest := by
          simp only [matchedDevices, List.filterMap_cons, hdv]
          simp [hn]
        rw [hm, ih, hdc, hdv]
        have hb : pyBeq PyVal.none (PyVal.str s) = false := by simp [pyBeq]
        simp [hb]
      · have hm : matchedDevices (d :: rest) = v :: matchedDevices rest := by
          simp only [matchedDevices, List.filterMap_cons, hdv]
          rw [if_neg hn]
        rw [hm]
        have hcs : countStr (v :: matchedDevices rest) s =
            countStr (matchedDevices rest) s +
              (if pyBeq v (PyVal.str s) then 1 else 0) := by
          simp only [countStr, List.countP_cons]
        rw [hcs, ih, hdc, hdv]

/-- C9: `list_devices` returns one row per device value present and
non-null, carrying the number of documents for that device (documents
with a missing or null `device` are excluded from every count), with the
rows sorted by count in descending order.  The hypothesis restricts the
catalog to the device values this program writes: strings (or null). -/
theorem C9_list_devices (catalog : List Doc)
    (Hs : ∀ d ∈ catalog, ∀ v, dlookup d "device" = some v →
      (∃ s : String, v = PyVal.str s) ∨ v = PyVal.none) :
    (∀ s : String,
      rowCount (list_devices catalog) s =
        (if deviceCount catalog s = 0 then Option.none
         else some (deviceCount catalog s))) ∧
    ((list_devices catalog).map Prod.fst).Nodup ∧
    List.Sorted (fun a b : PyVal × Nat => b.2 ≤ a.2) (list_devices catalog) := by
  have hmstr : ∀ w ∈ matchedDevices catalog, ∃ u : String, w = PyVal.str u := by
    intro w hw
    rcases List.mem_filterMap.mp hw with ⟨d, hd, hfd⟩
    cases hdv : dlookup d "device" with
    | none =>
      rw [hdv] at hfd
      simp at hfd
    | some v =>
      rw [hdv] at hfd
      dsimp only at hfd
      by_cases hn : isPyNone v = true
      · rw [if_pos hn] at hfd
        exact absurd hfd (by simp)
      · rw [if_neg hn] at hfd
        have hvw : v = w := Option.some.inj hfd
        subst hvw
        rcases Hs d hd v hdv with ⟨u, rfl⟩ | rfl
        · exact ⟨u, rfl⟩
        · exact absurd (show isPyNone PyVal.none = true from rfl) hn
  have htally := tally_fold_keys (matchedDevices catalog) []
    hmstr (by intro p hp; simp at hp) (by simp)
  have hperm : (List.insertionSort (fun a b : PyVal × Nat => b.2 ≤ a.2)
      (tally (matchedDevices catalog))).Perm
      (tally (matchedDevices catalog)) :=
    List.perm_insertionSort _ _
  refine ⟨?_, ?_, ?_⟩
  · intro s
    have h1 := rowCount_tally_fold (matchedDevices catalog) [] s hmstr
    have h0 : rowCount ([] : List (PyVal × Nat)) s = Option.none := rfl
    rw [h0] at h1
    have h2 : rowCount (list_devices catalog) s =
        rowCount (tally (matchedDevices catalog)) s :=
      rowCount_congr_perm _ _ hperm.symm htally.1 htally.2 s
    rw [h2]
    show rowCount ((matchedDevices catalog).foldl tallyStep []) s = _
    rw [h1, countStr_matchedDevices]
  · exact ((hperm.map Prod.fst).nodup_iff).mpr htally.2
  · haveI : IsTotal (PyVal × Nat) (fun a b => b.2 ≤ a.2) :=
      ⟨fun a b => Nat.le_total b.2 a.2⟩
    haveI : IsTrans (PyVal × Nat) (fun a b => b.2 ≤ a.2) :=
      ⟨fun _ _ _ h1 h2 => le_trans h2 h1⟩
    exact List.sorted_insertionSort _ _

/-- Witness for C9 at the specification's concrete scenario: three
documents with device "A" and one with device "B". -/
theorem C9_list_devices_witness :
    list_devices
      [[("device", PyVal.str "A")], [("device", PyVal.str "A")],
       [("device", PyVal.str "A")], [("device", PyVal.str "B")]] =
      [(PyVal.str "A", 3), (PyVal.str "B", 1)] ∧
    rowCount (list_devices
      [[("device", PyVal.str "A")], [("device", PyVal.str "A")],
       [("device", PyVal.str "A")], [("device", PyVal.str "B")]]) "A" =
      some 3 := by
  constructor
  · rfl
  · have h := (C9_list_devices
      [[("device", PyVal.str "A")], [("device", PyVal.str "A")],
       [("device", PyVal.str "A")], [("device", PyVal.str "B")]]
      (by
        intro d hd v hv
        rcases List.mem_cons.mp hd with rfl | hd2
        · exact Or.inl ⟨"A", (Option.some.inj hv).symm⟩
        · rcases List.mem_cons.mp hd2 with rfl | hd3
          · exact Or.inl ⟨"A", (Option.some.inj hv).symm⟩
          · rcases List.mem_cons.mp hd3 with rfl | hd4
            · exact Or.inl ⟨"A", (Option.some.inj hv).symm⟩
            · rcases List.mem_cons.mp hd4 with rfl | hd5
              · exact Or.inl ⟨"B", (Option.some.inj hv).symm⟩
              · simp at hd5)).1 "A"
    rw [h]
    rfl

end Daq
